import Mathlib

/-!
Verification of the threadweaver modal text editor core (Go sources under
internal/editor).  The Go code is shallowly embedded: a Go string is a
`List Char`, a Go `int` is an `Int`, and the panicking Go indexing /
slicing primitives are modelled as `Option`-valued helpers where `none`
means a runtime panic.  File I/O is modelled by passing the file content
(for load) respectively a success flag (for save) explicitly.
-/

namespace ThreadWeaver

/-- `s[i]` on a Go slice or string: panics (`none`) unless `0 ≤ i < len s`. -/
def goIdx (l : List α) (i : Int) : Option α :=
  if i < 0 then none else l.get? i.toNat

/-- `s[i] = a` on a Go slice: panics unless `0 ≤ i < len s`. -/
def goSet (l : List α) (i : Int) (a : α) : Option (List α) :=
  if 0 ≤ i ∧ i < (l.length : Int) then some (l.set i.toNat a) else none

/-- `s[:i]` on a Go slice or string: panics unless `0 ≤ i ≤ len s`. -/
def goTake (l : List α) (i : Int) : Option (List α) :=
  if 0 ≤ i ∧ i ≤ (l.length : Int) then some (l.take i.toNat) else none

/-- `s[i:]` on a Go slice or string: panics unless `0 ≤ i ≤ len s`. -/
def goDrop (l : List α) (i : Int) : Option (List α) :=
  if 0 ≤ i ∧ i ≤ (l.length : Int) then some (l.drop i.toNat) else none

/-- `s[a:b]` on a Go slice or string: panics unless `0 ≤ a ≤ b ≤ len s`. -/
def goSlice (l : List α) (a b : Int) : Option (List α) :=
  if 0 ≤ a ∧ a ≤ b ∧ b ≤ (l.length : Int) then
    some ((l.take b.toNat).drop a.toNat)
  else none

/-- Word characters, as classified by the editor: `[A-Za-z0-9_]`. -/
def isWordChar (c : Char) : Bool :=
  (97 ≤ c.toNat && c.toNat ≤ 122) || (65 ≤ c.toNat && c.toNat ≤ 90) ||
    (48 ≤ c.toNat && c.toNat ≤ 57) || c == '_'

/-- Whitespace as trimmed by Go `strings.TrimSpace` (Latin-1 range). -/
def isGoSpace (c : Char) : Bool :=
  c == ' ' || c == '\t' || c == '\n' || (c.toNat == 11) || (c.toNat == 12) ||
    c == '\r' || (c.toNat == 133) || (c.toNat == 160)

/-- Go `strings.TrimSpace`: drop whitespace from both ends. -/
def goTrimSpace (s : List Char) : List Char :=
  ((s.dropWhile isGoSpace).reverse.dropWhile isGoSpace).reverse

/-- Go `strings.Split(s, "\n")`: split on every LF, always at least one
piece; `""` gives one empty piece.  `List.splitOn` has exactly these
semantics for a one-character separator. -/
def splitLF (s : List Char) : List (List Char) :=
  s.splitOn '\n'

/-- Go `strings.ReplaceAll(s, "\r\n", "\n")`, left-to-right. -/
def normalizeCRLF : List Char → List Char
  | '\r' :: '\n' :: rest => '\n' :: normalizeCRLF rest
  | c :: rest => c :: normalizeCRLF rest
  | [] => []

/-- Go `strings.Join(lines, "\n")`. -/
def joinLF (ls : List (List Char)) : List Char :=
  List.intercalate ['\n'] ls

/-- Zero-indexed line/column coordinate (`Position` in selection.go). -/
structure Position where
  line : Int
  col : Int
deriving DecidableEq, Repr

/-- Anchor/head selection (`Selection` in selection.go). -/
structure Selection where
  anchor : Position
  head : Position
deriving DecidableEq, Repr

/-- `NewSelection`: a collapsed selection at `pos`. -/
def Selection.new (pos : Position) : Selection := ⟨pos, pos⟩

/-- `Selection.IsEmpty`: anchor and head coincide. -/
def Selection.isEmpty (s : Selection) : Bool := s.anchor = s.head

/-- `Selection.Start`: the (line, col)-lexicographically smaller endpoint. -/
def Selection.start (s : Selection) : Position :=
  if s.anchor.line < s.head.line ∨
      (s.anchor.line = s.head.line ∧ s.anchor.col < s.head.col) then
    s.anchor
  else s.head

/-- `Selection.End`: the (line, col)-lexicographically larger endpoint. -/
def Selection.endP (s : Selection) : Position :=
  if s.head.line < s.anchor.line ∨
      (s.anchor.line = s.head.line ∧ s.head.col < s.anchor.col) then
    s.anchor
  else s.head

/-- `Selection.ExtendTo`: move the head, keep the anchor. -/
def Selection.extendTo (s : Selection) (pos : Position) : Selection :=
  ⟨s.anchor, pos⟩

/-- The editor modes (`Mode` constants in the editor package). -/
inductive Mode
  | normal
  | insert
  | visual
  | command
deriving DecidableEq, Repr

/-- Line-based text buffer (`Buffer` in buffer.go).  A line is a list of
characters; `filename` is the empty list when no file name is set. -/
structure Buffer where
  lines : List (List Char)
  filename : List Char
  dirty : Bool
deriving DecidableEq, Repr

/-- `NewBuffer`: one empty line, not dirty. -/
def Buffer.new : Buffer := ⟨[[]], [], false⟩

/-- `Buffer.LineCount`. -/
def Buffer.lineCount (b : Buffer) : Int := b.lines.length

/-- `Buffer.GetLine`: total; empty string for an out-of-range index. -/
def Buffer.getLine (b : Buffer) (n : Int) : List Char :=
  (goIdx b.lines n).getD []

/-- `Buffer.LoadFile` on a file that exists with the given content:
CRLF-normalize, split on LF (empty content gives one empty line), record
the name, clear dirty.  (A missing file resets to `[[]]` the same way; a
read error leaves the buffer untouched — neither path is needed here.) -/
def Buffer.loadFile (filename content : List Char) : Buffer :=
  ⟨if content = [] then [[]] else splitLF (normalizeCRLF content),
   filename, false⟩

/-- `Buffer.SaveFile` with write outcome `ok`: no-op when no filename is
set; on a successful write the dirty flag is cleared, on a failed write
the buffer is left unchanged. -/
def Buffer.saveFile (ok : Bool) (b : Buffer) : Buffer :=
  if b.filename = [] then b
  else if ok then ⟨b.lines, b.filename, false⟩ else b

/-- The content `Buffer.SaveFile` writes: lines joined with LF. -/
def Buffer.savedContent (b : Buffer) : List Char := joinLF b.lines

/-- The column clamp `if pos.Col > len(line) then pos.Col = len(line)`
shared by `InsertChar` and `InsertNewline`. -/
def insCol (line : List Char) (col : Int) : Int :=
  if (line.length : Int) < col then (line.length : Int) else col

/-- The spliced line produced by `Buffer.InsertChar`. -/
def insLine (line : List Char) (col : Int) (ch : Char) : List Char :=
  line.take (insCol line col).toNat ++ [ch] ++ line.drop (insCol line col).toNat

/-- `Buffer.InsertChar`: no-op when `pos.line ≥ lineCount`; clamps the
column down to the line length, splices the character in, marks dirty,
returns the position advanced one column.  Panics (`none`) on a negative
line or column, exactly as the Go indexing would. -/
def Buffer.insertChar (b : Buffer) (pos : Position) (ch : Char) :
    Option (Buffer × Position) :=
  if b.lineCount ≤ pos.line then some (b, pos)
  else do
    let line ← goIdx b.lines pos.line
    let pre ← goTake line (insCol line pos.col)
    let post ← goDrop line (insCol line pos.col)
    let ls ← goSet b.lines pos.line (pre ++ [ch] ++ post)
    some (⟨ls, b.filename, true⟩, ⟨pos.line, insCol line pos.col + 1⟩)

/-- `Buffer.InsertNewline`: no-op when `pos.line ≥ lineCount`; clamps the
column, splits the line there into two lines, marks dirty, returns
the start of the following line. -/
def Buffer.insertNewline (b : Buffer) (pos : Position) :
    Option (Buffer × Position) :=
  if b.lineCount ≤ pos.line then some (b, pos)
  else do
    let line ← goIdx b.lines pos.line
    let before ← goTake line (insCol line pos.col)
    let after ← goDrop line (insCol line pos.col)
    let ls1 ← goSet b.lines pos.line before
    let front ← goTake ls1 (pos.line + 1)
    let back ← goDrop ls1 (pos.line + 1)
    some (⟨front ++ [after] ++ back, b.filename, true⟩, ⟨pos.line + 1, 0⟩)

/-- `Buffer.DeleteChar`: with `0 < col ≤ len` removes the preceding
character; with `col = 0` on a line after the first merges the line onto
the previous one; otherwise a no-op.  Panics on a negative line. -/
def Buffer.deleteChar (b : Buffer) (pos : Position) :
    Option (Buffer × Position) :=
  if b.lineCount ≤ pos.line then some (b, pos)
  else do
    let line ← goIdx b.lines pos.line
    if 0 < pos.col ∧ pos.col ≤ (line.length : Int) then do
      let pre ← goTake line (pos.col - 1)
      let post ← goDrop line pos.col
      let ls ← goSet b.lines pos.line (pre ++ post)
      some (⟨ls, b.filename, true⟩, ⟨pos.line, pos.col - 1⟩)
    else if pos.col = 0 ∧ 0 < pos.line then do
      let prevLine ← goIdx b.lines (pos.line - 1)
      let ls1 ← goSet b.lines (pos.line - 1) (prevLine ++ line)
      let front ← goTake ls1 pos.line
      let back ← goDrop ls1 (pos.line + 1)
      some (⟨front ++ back, b.filename, true⟩, ⟨pos.line - 1, (prevLine.length : Int)⟩)
    else some (b, pos)

/-- `Buffer.DeleteSelection`: splice out the normalized range, same-line
or multi-line; mark dirty; return the range start.  Unguarded in the Go
code: panics on any out-of-range endpoint. -/
def Buffer.deleteSelection (b : Buffer) (sel : Selection) :
    Option (Buffer × Position) :=
  let s := sel.start
  let e := sel.endP
  if s.line = e.line then do
    let line ← goIdx b.lines s.line
    let pre ← goTake line s.col
    let post ← goDrop line e.col
    let ls ← goSet b.lines s.line (pre ++ post)
    some (⟨ls, b.filename, true⟩, s)
  else do
    let sLineFull ← goIdx b.lines s.line
    let startPart ← goTake sLineFull s.col
    let eLineFull ← goIdx b.lines e.line
    let endPart ← goDrop eLineFull e.col
    let ls1 ← goSet b.lines s.line (startPart ++ endPart)
    if e.line + 1 < (ls1.length : Int) then do
      let front ← goTake ls1 (s.line + 1)
      let back ← goDrop ls1 (e.line + 1)
      some (⟨front ++ back, b.filename, true⟩, s)
    else do
      let front ← goTake ls1 (s.line + 1)
      some (⟨front, b.filename, true⟩, s)

/-- One iteration body of the `Buffer.GetSelectedText` multi-line loop. -/
def gstIter (b : Buffer) (s e : Position) (i : Int) : Option (List Char) :=
  let line := b.getLine i
  if i = s.line then
    if s.col < (line.length : Int) then do
      let piece ← goDrop line s.col
      some (piece ++ ['\n'])
    else some ['\n']
  else if i = e.line then
    if 0 < e.col ∧ e.col ≤ (line.length : Int) then goTake line e.col
    else some []
  else some (line ++ ['\n'])

/-- The `Buffer.GetSelectedText` multi-line loop, by fuel; the fuel used
below is an exact bound on the iteration count, so the loop semantics are
preserved. -/
def gstLoop (b : Buffer) (s e : Position) (i : Int) : Nat → Option (List Char)
  | 0 => some []
  | n + 1 =>
    if i ≤ e.line ∧ i < b.lineCount then do
      let piece ← gstIter b s e i
      let rest ← gstLoop b s e (i + 1) n
      some (piece ++ rest)
    else some []

/-- `Buffer.GetSelectedText`: the text covered by the normalized range;
defensive for non-negative out-of-range columns, but panics on a negative
start column. -/
def Buffer.getSelectedText (b : Buffer) (sel : Selection) :
    Option (List Char) :=
  let s := sel.start
  let e := sel.endP
  if s.line = e.line then
    let line := b.getLine s.line
    if (line.length : Int) ≤ s.col ∨ (line.length : Int) < e.col then some []
    else goSlice line s.col e.col
  else
    gstLoop b s e s.line (e.line - s.line + 1).toNat

/-- `Buffer.IsDirty`. -/
def Buffer.isDirty (b : Buffer) : Bool := b.dirty

/-- The editor state (`Editor` in editor.go). -/
structure Editor where
  buffer : Buffer
  cursor : Position
  selection : Selection
  mode : Mode
  command : List Char
  clipboard : List Char
deriving DecidableEq, Repr

/-- `editor.New()`: fresh buffer, origin cursor, collapsed selection,
Normal mode, empty accumulator and clipboard. -/
def Editor.new : Editor :=
  ⟨Buffer.new, ⟨0, 0⟩, Selection.new ⟨0, 0⟩, Mode.normal, [], []⟩

/-- `Editor.SetMode`: set the mode; entering any mode other than Visual
collapses the selection to the cursor. -/
def Editor.setMode (e : Editor) (m : Mode) : Editor :=
  let e1 := { e with mode := m }
  if m ≠ Mode.visual then { e1 with selection := Selection.new e1.cursor }
  else e1

/-- `clampCursor`, as a pure function of mode, buffer and raw position:
line clamped into the buffer, then the column clamped by the mode rule of
the Go code (Normal mode on a non-empty line stops one short of the
length). -/
def clampPos (m : Mode) (b : Buffer) (p : Position) : Position :=
  let l1 := if p.line < 0 then 0 else p.line
  let l2 := if b.lineCount ≤ l1 then b.lineCount - 1 else l1
  let l3 := if l2 < 0 then 0 else l2
  let len : Int := (b.getLine l3).length
  let c1 :=
    if m = Mode.normal ∧ 0 < len then
      if len ≤ p.col then len - 1 else p.col
    else
      if len < p.col then len else p.col
  let c2 := if c1 < 0 then 0 else c1
  ⟨l3, c2⟩

/-- `Editor.clampCursor`. -/
def Editor.clampCursor (e : Editor) : Editor :=
  { e with cursor := clampPos e.mode e.buffer e.cursor }

/-- The selection update shared by every movement command: extend the
head in Visual mode, collapse to the cursor otherwise. -/
def Editor.afterMove (e : Editor) : Editor :=
  if e.mode = Mode.visual then
    { e with selection := e.selection.extendTo e.cursor }
  else
    { e with selection := Selection.new e.cursor }

/-- `Editor.MoveCursor(dLine, dCol)`. -/
def Editor.moveCursor (e : Editor) (dLine dCol : Int) : Editor :=
  (({ e with cursor := ⟨e.cursor.line + dLine, e.cursor.col + dCol⟩
    }).clampCursor).afterMove

/-- `Editor.MoveCursorTo(pos)`. -/
def Editor.moveCursorTo (e : Editor) (pos : Position) : Editor :=
  (({ e with cursor := pos }).clampCursor).afterMove

/-- `Editor.MoveToLineStart`: column to 0 (no re-clamp in the Go code). -/
def Editor.moveToLineStart (e : Editor) : Editor :=
  ({ e with cursor := ⟨e.cursor.line, 0⟩ }).afterMove

/-- `Editor.MoveToLineEnd`: column to the mode-dependent line end (no
re-clamp in the Go code). -/
def Editor.moveToLineEnd (e : Editor) : Editor :=
  let len : Int := (e.buffer.getLine e.cursor.line).length
  let c := if e.mode = Mode.normal ∧ 0 < len then len - 1 else len
  ({ e with cursor := ⟨e.cursor.line, c⟩ }).afterMove

/-- The scan loop of `Editor.MoveWordForward`: from column `col` with
in-word flag `inWord`, advance while in the leading non-word run or the
following word run, stop at the first non-word character after entering a
word or at end of line.  Panics on a negative column inside the line. -/
def mwfLoop (line : List Char) (inWord : Bool) (col : Int) : Option Int :=
  if h : col < (line.length : Int) then
    match goIdx line col with
    | none => none
    | some c =>
      if !inWord && isWordChar c then mwfLoop line true (col + 1)
      else if inWord && !(isWordChar c) then some col
      else mwfLoop line inWord (col + 1)
  else some col
termination_by ((line.length : Int) - col).toNat
decreasing_by all_goals omega

/-- The column where the spec says the forward word scan stops, stated
from the spec's words: skip the leading run of non-word characters from
the cursor column; if no word character follows, stop at end of line;
otherwise skip the word run and stop at the first non-word character
after it (or end of line). -/
def specScan (line : List Char) (col : Int) : Int :=
  let t := (line.drop col.toNat).dropWhile (fun c => !(isWordChar c))
  if t = [] then (line.length : Int)
  else (line.length : Int) - ((t.dropWhile isWordChar).length : Int)

/-- `Editor.MoveWordForward`: run the scan; if it did not move the column
and a following line exists go to the start of the next line, otherwise
adopt the scanned column; then re-clamp and update the selection. -/
def Editor.moveWordForward (e : Editor) : Option Editor := do
  let line := e.buffer.getLine e.cursor.line
  let col ← mwfLoop line false e.cursor.col
  let e1 :=
    if col = e.cursor.col ∧ e.cursor.line < e.buffer.lineCount - 1 then
      { e with cursor := ⟨e.cursor.line + 1, 0⟩ }
    else
      { e with cursor := ⟨e.cursor.line, col⟩ }
  some e1.clampCursor.afterMove

/-- First loop of `Editor.MoveWordBackward`: step left over spaces while
the column stays positive. -/
def mwbSkipSpaces (line : List Char) (col : Int) : Option Int :=
  if h : 0 < col then
    match goIdx line col with
    | none => none
    | some c => if c == ' ' then mwbSkipSpaces line (col - 1) else some col
  else some col
termination_by col.toNat
decreasing_by all_goals omega

/-- Second loop of `Editor.MoveWordBackward`: step left until a non-word
character immediately precedes a word character. -/
def mwbScan (line : List Char) (col : Int) : Option Int :=
  if h : 0 < col then
    match goIdx line (col - 1), goIdx line col with
    | some cPrev, some cCur =>
      if !(isWordChar cPrev) && isWordChar cCur then some col
      else mwbScan line (col - 1)
    | _, _ => none
  else some col
termination_by col.toNat
decreasing_by all_goals omega

/-- `Editor.MoveWordBackward`. -/
def Editor.moveWordBackward (e : Editor) : Option Editor := do
  let e1 ←
    if e.cursor.col = 0 then
      if 0 < e.cursor.line then
        let nl := e.cursor.line - 1
        some { e with cursor := ⟨nl, ((e.buffer.getLine nl).length : Int)⟩ }
      else some e
    else do
      let line := e.buffer.getLine e.cursor.line
      let c1 ← mwbSkipSpaces line (e.cursor.col - 1)
      let c2 ← mwbScan line c1
      some { e with cursor := ⟨e.cursor.line, c2⟩ }
  some e1.clampCursor.afterMove

/-- `Editor.SelectLine`: select the whole cursor line (columns 0 through
line length) and move the cursor to the selection head; no re-clamp. -/
def Editor.selectLine (e : Editor) : Editor :=
  let len : Int := (e.buffer.getLine e.cursor.line).length
  let hd : Position := ⟨e.cursor.line, len⟩
  { e with selection := ⟨⟨e.cursor.line, 0⟩, hd⟩, cursor := hd }

/-- Backward loop of `Editor.SelectWord`: extend left over word
characters. -/
def swBack (line : List Char) (start : Int) : Option Int :=
  if h : 0 < start then
    match goIdx line (start - 1) with
    | none => none
    | some c => if isWordChar c then swBack line (start - 1) else some start
  else some start
termination_by start.toNat
decreasing_by all_goals omega

/-- Forward loop of `Editor.SelectWord`: extend right over word
characters. -/
def swFwd (line : List Char) (stop : Int) : Option Int :=
  if h : stop < (line.length : Int) then
    match goIdx line stop with
    | none => none
    | some c => if isWordChar c then swFwd line (stop + 1) else some stop
  else some stop
termination_by ((line.length : Int) - stop).toNat
decreasing_by all_goals omega

/-- `Editor.SelectWord`: no-op past end of line or on a non-word
character; otherwise select the maximal word run around the cursor and
move the cursor to its end; no re-clamp. -/
def Editor.selectWord (e : Editor) : Option Editor :=
  let line := e.buffer.getLine e.cursor.line
  if (line.length : Int) ≤ e.cursor.col then some e
  else do
    let c0 ← goIdx line e.cursor.col
    if !(isWordChar c0) then some e
    else do
      let s ← swBack line e.cursor.col
      let stop ← swFwd line e.cursor.col
      some { e with
        selection := ⟨⟨e.cursor.line, s⟩, ⟨e.cursor.line, stop⟩⟩,
        cursor := ⟨e.cursor.line, stop⟩ }

/-- `Editor.DeleteSelection`: no-op on an empty selection; otherwise
delete via the buffer, put the cursor at the returned position, collapse
the selection there, then re-clamp the cursor (the selection keeps the
pre-clamp position, as in the Go code). -/
def Editor.deleteSelection (e : Editor) : Option Editor :=
  if e.selection.isEmpty then some e
  else do
    let (b1, p) ← e.buffer.deleteSelection e.selection
    some ({ e with buffer := b1, cursor := p,
                   selection := Selection.new p }).clampCursor

/-- `Editor.YankSelection`: no-op on an empty selection; otherwise
overwrite the clipboard with the selected text. -/
def Editor.yankSelection (e : Editor) : Option Editor :=
  if e.selection.isEmpty then some e
  else do
    let txt ← e.buffer.getSelectedText e.selection
    some { e with clipboard := txt }

/-- Insert the characters of one clipboard line via `Buffer.InsertChar`,
threading the cursor. -/
def insertString (b : Buffer) (pos : Position) :
    List Char → Option (Buffer × Position)
  | [] => some (b, pos)
  | c :: rest => do
    let (b1, p1) ← b.insertChar pos c
    insertString b1 p1 rest

/-- Insert clipboard lines, separated by `Buffer.InsertNewline` at each
interior boundary. -/
def insertLines (b : Buffer) (pos : Position) :
    List (List Char) → Option (Buffer × Position)
  | [] => some (b, pos)
  | [l] => insertString b pos l
  | l :: l2 :: rest => do
    let (b1, p1) ← insertString b pos l
    let (b2, p2) ← b1.insertNewline p1
    insertLines b2 p2 (l2 :: rest)

/-- `Editor.Paste`: no-op on an empty clipboard; otherwise replay the
clipboard character by character (newlines via `InsertNewline`), then
collapse the selection to the final cursor. -/
def Editor.paste (e : Editor) : Option Editor :=
  if e.clipboard = [] then some e
  else do
    let (b1, p1) ← insertLines e.buffer e.cursor (splitLF e.clipboard)
    some { e with buffer := b1, cursor := p1, selection := Selection.new p1 }

/-- `Editor.InsertChar`. -/
def Editor.insertChar (e : Editor) (ch : Char) : Option Editor := do
  let (b1, p1) ← e.buffer.insertChar e.cursor ch
  some { e with buffer := b1, cursor := p1, selection := Selection.new p1 }

/-- `Editor.InsertNewline`. -/
def Editor.insertNewline (e : Editor) : Option Editor := do
  let (b1, p1) ← e.buffer.insertNewline e.cursor
  some { e with buffer := b1, cursor := p1, selection := Selection.new p1 }

/-- `Editor.Backspace`: delete via the buffer, collapse the selection to
the returned cursor, then re-clamp the cursor. -/
def Editor.backspace (e : Editor) : Option Editor := do
  let (b1, p1) ← e.buffer.deleteChar e.cursor
  some ({ e with buffer := b1, cursor := p1,
                 selection := Selection.new p1 }).clampCursor

/-- `Editor.AppendCommand`. -/
def Editor.appendCommand (e : Editor) (ch : Char) : Editor :=
  { e with command := e.command ++ [ch] }

/-- `Editor.BackspaceCommand`. -/
def Editor.backspaceCommand (e : Editor) : Editor :=
  if e.command.length > 0 then { e with command := e.command.dropLast }
  else e

/-- `Editor.ClearCommand`. -/
def Editor.clearCommand (e : Editor) : Editor := { e with command := [] }

/-- `Editor.ExecuteCommand` with write outcome `ok` for any save it
triggers: trim the accumulator, clear it, and dispatch; the Bool is the
quit signal. -/
def Editor.executeCommand (ok : Bool) (e : Editor) : Editor × Bool :=
  let cmd := goTrimSpace e.command
  let e1 := { e with command := ([] : List Char) }
  if cmd = ['w'] then ({ e1 with buffer := e1.buffer.saveFile ok }, false)
  else if cmd = ['q'] then (e1, !e1.buffer.isDirty)
  else if cmd = ['q', '!'] then (e1, true)
  else if cmd = ['w', 'q'] then ({ e1 with buffer := e1.buffer.saveFile ok }, true)
  else (e1, false)

/-- The editor command methods, as invoked by the input dispatcher. -/
inductive Cmd
  | setMode (m : Mode)
  | moveCursor (dLine dCol : Int)
  | moveCursorTo (p : Position)
  | moveToLineStart
  | moveToLineEnd
  | moveWordForward
  | moveWordBackward
  | selectLine
  | selectWord
  | deleteSelection
  | yankSelection
  | paste
  | insertChar (c : Char)
  | insertNewline
  | backspace
  | appendCommand (c : Char)
  | backspaceCommand
  | clearCommand
  | executeCommand (ok : Bool)
deriving DecidableEq, Repr

/-- Run one editor command; `none` means the Go code would panic, so the
command does not complete. -/
def Editor.step (e : Editor) : Cmd → Option Editor
  | .setMode m => some (e.setMode m)
  | .moveCursor dl dc => some (e.moveCursor dl dc)
  | .moveCursorTo p => some (e.moveCursorTo p)
  | .moveToLineStart => some e.moveToLineStart
  | .moveToLineEnd => some e.moveToLineEnd
  | .moveWordForward => e.moveWordForward
  | .moveWordBackward => e.moveWordBackward
  | .selectLine => some e.selectLine
  | .selectWord => e.selectWord
  | .deleteSelection => e.deleteSelection
  | .yankSelection => e.yankSelection
  | .paste => e.paste
  | .insertChar c => e.insertChar c
  | .insertNewline => e.insertNewline
  | .backspace => e.backspace
  | .appendCommand c => some (e.appendCommand c)
  | .backspaceCommand => some e.backspaceCommand
  | .clearCommand => some e.clearCommand
  | .executeCommand ok => some (e.executeCommand ok).1

/-- Run a list of commands in order. -/
def Editor.run (e : Editor) : List Cmd → Option Editor
  | [] => some e
  | c :: rest => do
    let e1 ← e.step c
    e1.run rest

/-- Editor states reachable through completed commands, starting from a
fresh editor, optionally after the startup `LoadFile` done by main. -/
inductive Reachable : Editor → Prop
  | init : Reachable Editor.new
  | load (fn content : List Char) :
      Reachable { Editor.new with buffer := Buffer.loadFile fn content }
  | step (e : Editor) (c : Cmd) (e1 : Editor)
      (hr : Reachable e) (hs : e.step c = some e1) : Reachable e1

/-- A position that is valid for a buffer: line in range, column between
0 and that line's length. -/
def ValidPos (b : Buffer) (p : Position) : Prop :=
  0 ≤ p.line ∧ p.line < b.lineCount ∧ 0 ≤ p.col ∧
    p.col ≤ ((b.getLine p.line).length : Int)

/-- The editor state invariant: non-empty line list, and cursor and both
selection endpoints valid for the buffer. -/
def EditorInv (e : Editor) : Prop :=
  e.buffer.lines ≠ [] ∧ ValidPos e.buffer e.cursor ∧
    ValidPos e.buffer e.selection.anchor ∧ ValidPos e.buffer e.selection.head

/-! ## Helper lemmas about the Go primitives -/

theorem goIdx_eq_get {l : List α} {i : Int} (h0 : 0 ≤ i)
    (h1 : i < (l.length : Int)) :
    goIdx l i = some (l.get ⟨i.toNat, by omega⟩) := by
  unfold goIdx
  rw [if_neg (by omega), List.get?_eq_get]

theorem goIdx_lines_eq {b : Buffer} {i : Int} (h0 : 0 ≤ i)
    (h1 : i < b.lineCount) : goIdx b.lines i = some (b.getLine i) := by
  have h1' : i < (b.lines.length : Int) := h1
  rw [Buffer.getLine, goIdx_eq_get h0 h1']
  rfl

theorem goTake_eq {l : List α} {i : Int} (h0 : 0 ≤ i)
    (h1 : i ≤ (l.length : Int)) : goTake l i = some (l.take i.toNat) := by
  unfold goTake; rw [if_pos ⟨h0, h1⟩]

theorem goDrop_eq {l : List α} {i : Int} (h0 : 0 ≤ i)
    (h1 : i ≤ (l.length : Int)) : goDrop l i = some (l.drop i.toNat) := by
  unfold goDrop; rw [if_pos ⟨h0, h1⟩]

theorem goSlice_eq {l : List α} {a b : Int} (h0 : 0 ≤ a) (h1 : a ≤ b)
    (h2 : b ≤ (l.length : Int)) :
    goSlice l a b = some ((l.take b.toNat).drop a.toNat) := by
  unfold goSlice; rw [if_pos ⟨h0, h1, h2⟩]

theorem goSet_eq {l : List α} {i : Int} {a : α} (h0 : 0 ≤ i)
    (h1 : i < (l.length : Int)) : goSet l i a = some (l.set i.toNat a) := by
  unfold goSet; rw [if_pos ⟨h0, h1⟩]

theorem set_take_succ {l : List α} (n : Nat) (a : α) (h : n < l.length) :
    (l.set n a).take (n + 1) = l.take n ++ [a] := by
  rw [List.set_eq_take_cons_drop a h, List.take_append_eq_append_take,
    List.take_take]
  have h1 : (l.take n).length = n := by rw [List.length_take]; omega
  rw [h1]
  have h2 : min (n + 1) n = n := by omega
  have h3 : n + 1 - n = 1 := by omega
  rw [h2, h3]
  rfl

theorem set_take_of_eq {l : List α} (n m : Nat) (a : α) (h : n < l.length)
    (hm : m = n + 1) : (l.set n a).take m = l.take n ++ [a] := by
  subst hm
  exact set_take_succ n a h

theorem set_drop_of_lt {l : List α} (n m : Nat) (a : α) (h : n < l.length)
    (hnm : n < m) : (l.set n a).drop m = l.drop m := by
  rw [List.set_eq_take_cons_drop a h, List.drop_append_eq_append_drop]
  have h1 : (l.take n).length = n := by rw [List.length_take]; omega
  rw [h1, List.drop_eq_nil_of_le (by rw [h1]; omega)]
  have h2 : m - n = (m - n - 1) + 1 := by omega
  rw [List.nil_append, h2, List.drop_succ_cons, List.drop_drop]
  congr 1
  omega

theorem getLine_mk {ls : List (List Char)} {fn : List Char} {d : Bool}
    {i : Int} (h0 : 0 ≤ i) (h1 : i < (ls.length : Int)) :
    (Buffer.mk ls fn d).getLine i = ls.get ⟨i.toNat, by omega⟩ := by
  show (goIdx ls i).getD [] = _
  rw [goIdx_eq_get h0 h1]
  rfl

theorem getLine_out {b : Buffer} {i : Int}
    (h : i < 0 ∨ b.lineCount ≤ i) : b.getLine i = [] := by
  rw [Buffer.getLine]
  unfold goIdx
  by_cases hneg : i < 0
  · rw [if_pos hneg]; rfl
  · rw [if_neg hneg]
    have hle : b.lines.length ≤ i.toNat := by
      rcases h with h | h
      · omega
      · simp only [Buffer.lineCount] at h; omega
    rw [List.get?_eq_none.mpr hle]
    rfl

/-! ## Selection ordering -/

theorem start_le_endP (s : Selection) :
    s.start.line < s.endP.line ∨
      (s.start.line = s.endP.line ∧ s.start.col ≤ s.endP.col) := by
  unfold Selection.start Selection.endP
  split_ifs <;> simp_all <;> omega

theorem start_cases (s : Selection) :
    s.start = s.anchor ∨ s.start = s.head := by
  unfold Selection.start
  split_ifs <;> simp

theorem endP_cases (s : Selection) :
    s.endP = s.anchor ∨ s.endP = s.head := by
  unfold Selection.endP
  split_ifs <;> simp

/-! ## Buffer operation characterizations -/

/-- Successful `InsertChar` on an in-range line with a non-negative
column: the clamped column receives the character, dirty is set, and the
returned position is one column further. -/
theorem insertChar_eq {b : Buffer} {pos : Position} {ch : Char}
    (h0 : 0 ≤ pos.line) (h1 : pos.line < b.lineCount) (h2 : 0 ≤ pos.col) :
    b.insertChar pos ch =
      some (⟨b.lines.set pos.line.toNat
               (insLine (b.getLine pos.line) pos.col ch),
             b.filename, true⟩,
            ⟨pos.line, insCol (b.getLine pos.line) pos.col + 1⟩) := by
  have hc0 : 0 ≤ insCol (b.getLine pos.line) pos.col := by
    unfold insCol; split_ifs <;> omega
  have hc1 : insCol (b.getLine pos.line) pos.col ≤
      ((b.getLine pos.line).length : Int) := by
    unfold insCol; split_ifs <;> omega
  unfold Buffer.insertChar
  rw [if_neg (by omega), goIdx_lines_eq h0 h1]
  simp only [Option.bind_eq_bind, Option.some_bind]
  rw [goTake_eq hc0 hc1]
  simp only [Option.bind_eq_bind, Option.some_bind]
  rw [goDrop_eq hc0 hc1]
  simp only [Option.bind_eq_bind, Option.some_bind]
  rw [goSet_eq (by omega) (by simpa [Buffer.lineCount] using h1)]
  simp only [Option.bind_eq_bind, Option.some_bind]
  rfl

/-- Successful `InsertNewline` on an in-range line with a non-negative
column: the line is split at the clamped column. -/
theorem insertNewline_eq {b : Buffer} {pos : Position}
    (h0 : 0 ≤ pos.line) (h1 : pos.line < b.lineCount) (h2 : 0 ≤ pos.col) :
    b.insertNewline pos =
      some (⟨b.lines.take pos.line.toNat ++
               (b.getLine pos.line).take (insCol (b.getLine pos.line) pos.col).toNat ::
               (b.getLine pos.line).drop (insCol (b.getLine pos.line) pos.col).toNat ::
               b.lines.drop (pos.line.toNat + 1),
             b.filename, true⟩,
            ⟨pos.line + 1, 0⟩) := by
  have hc0 : 0 ≤ insCol (b.getLine pos.line) pos.col := by
    unfold insCol; split_ifs <;> omega
  have hc1 : insCol (b.getLine pos.line) pos.col ≤
      ((b.getLine pos.line).length : Int) := by
    unfold insCol; split_ifs <;> omega
  have hlen : pos.line.toNat < b.lines.length := by
    simp only [Buffer.lineCount] at h1; omega
  unfold Buffer.insertNewline
  rw [if_neg (by omega), goIdx_lines_eq h0 h1]
  simp only [Option.bind_eq_bind, Option.some_bind]
  rw [goTake_eq hc0 hc1]
  simp only [Option.bind_eq_bind, Option.some_bind]
  rw [goDrop_eq hc0 hc1]
  simp only [Option.bind_eq_bind, Option.some_bind]
  rw [goSet_eq (by omega) (by simpa [Buffer.lineCount] using h1)]
  simp only [Option.bind_eq_bind, Option.some_bind]
  rw [goTake_eq (by omega) (by rw [List.length_set]; omega)]
  simp only [Option.bind_eq_bind, Option.some_bind]
  rw [goDrop_eq (by omega) (by rw [List.length_set]; omega)]
  simp only [Option.bind_eq_bind, Option.some_bind]
  have ht : (pos.line + 1).toNat = pos.line.toNat + 1 := by omega
  rw [ht, set_take_succ pos.line.toNat _ hlen,
    set_drop_of_lt pos.line.toNat (pos.line.toNat + 1) _ hlen (by omega)]
  simp [List.append_assoc]

/-- Successful `DeleteChar`, deletion branch: `0 < col ≤ len` removes the
character before the column. -/
theorem deleteChar_del_eq {b : Buffer} {pos : Position}
    (h0 : 0 ≤ pos.line) (h1 : pos.line < b.lineCount)
    (hc : 0 < pos.col ∧ pos.col ≤ ((b.getLine pos.line).length : Int)) :
    b.deleteChar pos =
      some (⟨b.lines.set pos.line.toNat
               ((b.getLine pos.line).take (pos.col - 1).toNat ++
                (b.getLine pos.line).drop pos.col.toNat),
             b.filename, true⟩,
            ⟨pos.line, pos.col - 1⟩) := by
  unfold Buffer.deleteChar
  rw [if_neg (by omega), goIdx_lines_eq h0 h1]
  simp only [Option.bind_eq_bind, Option.some_bind]
  rw [if_pos hc, goTake_eq (by omega) (by omega)]
  simp only [Option.bind_eq_bind, Option.some_bind]
  rw [goDrop_eq (by omega) (by omega)]
  simp only [Option.bind_eq_bind, Option.some_bind]
  rw [goSet_eq (by omega) (by simpa [Buffer.lineCount] using h1)]
  simp only [Option.bind_eq_bind, Option.some_bind]

/-- `DeleteChar` with a column strictly beyond the line length: a no-op
(the Go guard `pos.Col <= len(line)` fails and so does `pos.Col == 0`). -/
theorem deleteChar_noop_eq {b : Buffer} {pos : Position}
    (h0 : 0 ≤ pos.line) (h1 : pos.line < b.lineCount)
    (hc : ((b.getLine pos.line).length : Int) < pos.col) :
    b.deleteChar pos = some (b, pos) := by
  unfold Buffer.deleteChar
  rw [if_neg (by omega), goIdx_lines_eq h0 h1]
  simp only [Option.bind_eq_bind, Option.some_bind]
  rw [if_neg (by omega), if_neg (by omega)]

/-- Successful `DeleteChar`, merge branch: column 0 on a line after the
first appends the line onto the previous one and removes it. -/
theorem deleteChar_merge_eq {b : Buffer} {pos : Position}
    (h1 : pos.line < b.lineCount) (hc : pos.col = 0) (hl : 0 < pos.line) :
    b.deleteChar pos =
      some (⟨b.lines.take (pos.line.toNat - 1) ++
               (b.getLine (pos.line - 1) ++ b.getLine pos.line) ::
               b.lines.drop (pos.line.toNat + 1),
             b.filename, true⟩,
            ⟨pos.line - 1, ((b.getLine (pos.line - 1)).length : Int)⟩) := by
  have hlen : pos.line.toNat < b.lines.length := by
    simp only [Buffer.lineCount] at h1; omega
  unfold Buffer.deleteChar
  rw [if_neg (by omega), goIdx_lines_eq (by omega) h1]
  simp only [Option.bind_eq_bind, Option.some_bind]
  rw [if_neg (by omega), if_pos ⟨hc, hl⟩,
    goIdx_lines_eq (by omega) (by omega)]
  simp only [Option.bind_eq_bind, Option.some_bind]
  rw [goSet_eq (by omega) (by omega)]
  simp only [Option.bind_eq_bind, Option.some_bind]
  rw [goTake_eq (by omega) (by rw [List.length_set]; omega)]
  simp only [Option.bind_eq_bind, Option.some_bind]
  rw [goDrop_eq (by omega) (by rw [List.length_set]; omega)]
  simp only [Option.bind_eq_bind, Option.some_bind]
  have hm1 : (pos.line - 1).toNat = pos.line.toNat - 1 := by omega
  have ht : (pos.line + 1).toNat = pos.line.toNat + 1 := by omega
  have hm3 : pos.line.toNat - 1 < b.lines.length := by omega
  rw [hm1, ht,
    set_take_of_eq (pos.line.toNat - 1) pos.line.toNat _ hm3 (by omega),
    set_drop_of_lt (pos.line.toNat - 1) (pos.line.toNat + 1) _ hm3 (by omega)]
  simp [List.append_assoc]

/-- `DeleteChar` at the very start of the buffer: a no-op. -/
theorem deleteChar_origin_eq {b : Buffer} {pos : Position}
    (h1 : pos.line < b.lineCount) (hc : pos.col = 0) (hl : pos.line = 0) :
    b.deleteChar pos = some (b, pos) := by
  unfold Buffer.deleteChar
  rw [if_neg (by omega), goIdx_lines_eq (by omega) h1]
  simp only [Option.bind_eq_bind, Option.some_bind]
  rw [if_neg (by omega), if_neg (by omega)]

/-- Successful `DeleteSelection` with both normalized endpoints in
range: exactly the normalized range is removed — the start line keeps its
prefix before the start column, gains the end line's suffix from the end
column, the lines in between (start+1 through end) disappear, the buffer
is dirty, and the returned position is the range start.  The same-line
and multi-line branches of the Go code both produce this shape. -/
theorem deleteSelection_eq {b : Buffer} {sel : Selection}
    (hs : ValidPos b sel.start) (he : ValidPos b sel.endP) :
    b.deleteSelection sel =
      some (⟨b.lines.take sel.start.line.toNat ++
               ((b.getLine sel.start.line).take sel.start.col.toNat ++
                (b.getLine sel.endP.line).drop sel.endP.col.toNat) ::
               b.lines.drop (sel.endP.line.toNat + 1),
             b.filename, true⟩,
            sel.start) := by
  obtain ⟨hs0, hs1, hs2, hs3⟩ := hs
  obtain ⟨he0, he1, he2, he3⟩ := he
  have hs1' : sel.start.line < (b.lines.length : Int) := by
    simpa [Buffer.lineCount] using hs1
  have he1' : sel.endP.line < (b.lines.length : Int) := by
    simpa [Buffer.lineCount] using he1
  have hsn : sel.start.line.toNat < b.lines.length := by omega
  by_cases hl : sel.start.line = sel.endP.line
  · unfold Buffer.deleteSelection
    dsimp only
    rw [if_pos hl, goIdx_lines_eq hs0 hs1]
    simp only [Option.bind_eq_bind, Option.some_bind]
    rw [goTake_eq hs2 hs3]
    simp only [Option.bind_eq_bind, Option.some_bind]
    rw [goDrop_eq he2 (by rw [hl]; exact he3)]
    simp only [Option.bind_eq_bind, Option.some_bind]
    rw [goSet_eq hs0 hs1']
    simp only [Option.bind_eq_bind, Option.some_bind]
    rw [List.set_eq_take_cons_drop _ hsn]
    rw [hl]
  · have hll : sel.start.line < sel.endP.line := by
      rcases start_le_endP sel with h | h
      · exact h
      · exact absurd h.1 hl
    unfold Buffer.deleteSelection
    dsimp only
    rw [if_neg hl, goIdx_lines_eq hs0 hs1]
    simp only [Option.bind_eq_bind, Option.some_bind]
    rw [goTake_eq hs2 hs3]
    simp only [Option.bind_eq_bind, Option.some_bind]
    rw [goIdx_lines_eq he0 he1]
    simp only [Option.bind_eq_bind, Option.some_bind]
    rw [goDrop_eq he2 he3]
    simp only [Option.bind_eq_bind, Option.some_bind]
    rw [goSet_eq hs0 hs1']
    simp only [Option.bind_eq_bind, Option.some_bind]
    rw [List.length_set]
    have ht1 : (sel.start.line + 1).toNat = sel.start.line.toNat + 1 := by
      omega
    have ht2 : (sel.endP.line + 1).toNat = sel.endP.line.toNat + 1 := by
      omega
    by_cases hlast : sel.endP.line + 1 < (b.lines.length : Int)
    · rw [if_pos hlast,
        goTake_eq (by omega) (by rw [List.length_set]; omega)]
      simp only [Option.bind_eq_bind, Option.some_bind]
      rw [goDrop_eq (by omega) (by rw [List.length_set]; omega)]
      simp only [Option.bind_eq_bind, Option.some_bind]
      rw [ht1, ht2, set_take_succ sel.start.line.toNat _ hsn,
        set_drop_of_lt sel.start.line.toNat (sel.endP.line.toNat + 1) _ hsn
          (by omega)]
      simp [List.append_assoc]
    · rw [if_neg hlast,
        goTake_eq (by omega) (by rw [List.length_set]; omega)]
      simp only [Option.bind_eq_bind, Option.some_bind]
      have hnil : b.lines.drop (sel.endP.line.toNat + 1) = [] :=
        List.drop_eq_nil_of_le (by omega)
      rw [ht1, set_take_succ sel.start.line.toNat _ hsn, hnil]

/-! ## Inversion lemmas: what a successful primitive implies -/

theorem goIdx_inv {l : List α} {i : Int} {x : α} (h : goIdx l i = some x) :
    0 ≤ i ∧ i < (l.length : Int) := by
  unfold goIdx at h
  split at h
  · exact absurd h (by simp)
  · rename_i hn
    have := List.get?_eq_some.mp h
    obtain ⟨hlt, -⟩ := this
    omega

theorem goTake_inv {l : List α} {i : Int} {x : List α}
    (h : goTake l i = some x) :
    0 ≤ i ∧ i ≤ (l.length : Int) ∧ x = l.take i.toNat := by
  unfold goTake at h
  split at h
  · rename_i hc
    cases h
    exact ⟨hc.1, hc.2, rfl⟩
  · exact absurd h (by simp)

theorem goDrop_inv {l : List α} {i : Int} {x : List α}
    (h : goDrop l i = some x) :
    0 ≤ i ∧ i ≤ (l.length : Int) ∧ x = l.drop i.toNat := by
  unfold goDrop at h
  split at h
  · rename_i hc
    cases h
    exact ⟨hc.1, hc.2, rfl⟩
  · exact absurd h (by simp)

theorem goSet_inv {l : List α} {i : Int} {a : α} {x : List α}
    (h : goSet l i a = some x) :
    0 ≤ i ∧ i < (l.length : Int) ∧ x = l.set i.toNat a := by
  unfold goSet at h
  split at h
  · rename_i hc
    cases h
    exact ⟨hc.1, hc.2, rfl⟩
  · exact absurd h (by simp)

/-! ## Success (no-panic) lemmas for non-negative coordinates -/

theorem insertChar_isSome (b : Buffer) (pos : Position) (ch : Char)
    (h0 : 0 ≤ pos.line) (h2 : 0 ≤ pos.col) : (b.insertChar pos ch).isSome := by
  by_cases h1 : b.lineCount ≤ pos.line
  · unfold Buffer.insertChar
    rw [if_pos h1]
    rfl
  · rw [insertChar_eq h0 (by omega) h2]
    rfl

theorem insertNewline_isSome (b : Buffer) (pos : Position)
    (h0 : 0 ≤ pos.line) (h2 : 0 ≤ pos.col) : (b.insertNewline pos).isSome := by
  by_cases h1 : b.lineCount ≤ pos.line
  · unfold Buffer.insertNewline
    rw [if_pos h1]
    rfl
  · rw [insertNewline_eq h0 (by omega) h2]
    rfl

theorem deleteChar_isSome (b : Buffer) (pos : Position)
    (h0 : 0 ≤ pos.line) (h2 : 0 ≤ pos.col) : (b.deleteChar pos).isSome := by
  by_cases h1 : b.lineCount ≤ pos.line
  · unfold Buffer.deleteChar
    rw [if_pos h1]
    rfl
  · by_cases hc1 : 0 < pos.col ∧ pos.col ≤ ((b.getLine pos.line).length : Int)
    · rw [deleteChar_del_eq h0 (by omega) hc1]
      rfl
    · by_cases hc2 : ((b.getLine pos.line).length : Int) < pos.col
      · rw [deleteChar_noop_eq h0 (by omega) hc2]
        rfl
      · have hc0 : pos.col = 0 := by omega
        by_cases hl : 0 < pos.line
        · rw [deleteChar_merge_eq (by omega) hc0 hl]
          rfl
        · rw [deleteChar_origin_eq (by omega) hc0 (by omega)]
          rfl

theorem deleteSelection_isSome (b : Buffer) (sel : Selection)
    (hs : ValidPos b sel.start) (he : ValidPos b sel.endP) :
    (b.deleteSelection sel).isSome := by
  rw [deleteSelection_eq hs he]
  rfl

theorem gstIter_isSome (b : Buffer) (s e : Position) (i : Int)
    (hs : 0 ≤ s.col) : (gstIter b s e i).isSome := by
  unfold gstIter
  dsimp only
  split_ifs with h1 h2 h3 h4
  · rw [goDrop_eq hs (by omega)]
    rfl
  · rfl
  · rw [goTake_eq (by omega) (by omega)]
    rfl
  · rfl
  · rfl

theorem gstLoop_isSome (b : Buffer) (s e : Position) (hs : 0 ≤ s.col) :
    ∀ (n : Nat) (i : Int), (gstLoop b s e i n).isSome := by
  intro n
  induction n with
  | zero => intro i; rfl
  | succ n ih =>
    intro i
    unfold gstLoop
    split
    · obtain ⟨p, hp⟩ := Option.isSome_iff_exists.mp (gstIter_isSome b s e i hs)
      obtain ⟨r, hr⟩ := Option.isSome_iff_exists.mp (ih (i + 1))
      rw [hp]
      simp only [Option.bind_eq_bind, Option.some_bind]
      rw [hr]
      rfl
    · rfl

theorem getSelectedText_isSome (b : Buffer) (sel : Selection)
    (hs : 0 ≤ sel.start.col)
    (hc : sel.start.line = sel.endP.line →
      sel.start.col ≤ sel.endP.col) : (b.getSelectedText sel).isSome := by
  unfold Buffer.getSelectedText
  dsimp only
  split_ifs with h1 h2
  · rfl
  · rw [goSlice_eq hs (hc h1) (by omega)]
    rfl
  · exact gstLoop_isSome b sel.start sel.endP hs _ _

/-! ## C9: load/save round-trip -/

/-- C9: `SaveFile` immediately after `LoadFile` writes back the
CRLF-normalized content byte for byte: joining the loaded lines with LF
reproduces the normalized content. -/
theorem loadFile_saveFile_roundtrip (fn content : List Char) :
    (Buffer.loadFile fn content).savedContent = normalizeCRLF content := by
  unfold Buffer.loadFile Buffer.savedContent joinLF splitLF
  by_cases h : content = []
  · simp [h, normalizeCRLF, List.intercalate]
  · rw [if_neg h]
    apply List.intercalate_splitOn

/-! ## C4: ExecuteCommand -/

/-- C4: `ExecuteCommand` trims surrounding whitespace, clears the
accumulator, and then: "w" saves and returns false; "q" returns true
exactly when the buffer is not dirty, with no other side effect; "q!"
returns true unconditionally; "wq" saves and returns true regardless of
the save outcome; anything else has no effect and returns false. -/
theorem executeCommand_spec (e : Editor) (ok : Bool) :
    (e.executeCommand ok).1.command = [] ∧
    (goTrimSpace e.command = ['w'] →
      e.executeCommand ok =
        ({ e with command := [], buffer := e.buffer.saveFile ok }, false)) ∧
    (goTrimSpace e.command = ['q'] →
      e.executeCommand ok = ({ e with command := [] }, !e.buffer.dirty)) ∧
    (goTrimSpace e.command = ['q', '!'] →
      e.executeCommand ok = ({ e with command := [] }, true)) ∧
    (goTrimSpace e.command = ['w', 'q'] →
      e.executeCommand ok =
        ({ e with command := [], buffer := e.buffer.saveFile ok }, true)) ∧
    (goTrimSpace e.command ∉
        ([['w'], ['q'], ['q', '!'], ['w', 'q']] : List (List Char)) →
      e.executeCommand ok = ({ e with command := [] }, false)) := by
  refine ⟨?_, ?_, ?_, ?_, ?_, ?_⟩
  · dsimp only [Editor.executeCommand]
    split_ifs <;> rfl
  · intro h
    dsimp only [Editor.executeCommand]
    rw [h]
    rfl
  · intro h
    dsimp only [Editor.executeCommand]
    rw [h]
    rfl
  · intro h
    dsimp only [Editor.executeCommand]
    rw [h]
    rfl
  · intro h
    dsimp only [Editor.executeCommand]
    rw [h]
    rfl
  · intro h
    simp only [List.mem_cons, List.mem_singleton, not_or] at h
    obtain ⟨h1, h2, h3, h4, -⟩ := h
    dsimp only [Editor.executeCommand]
    rw [if_neg h1, if_neg h2, if_neg h3, if_neg h4]

/-! ## C8: DeleteChar -/

/-- C8 counterexample: on buffer ["a"] the position {0,2} has an
in-range line and col > 0, yet DeleteChar is a no-op returning {0,2}
unchanged — not a deletion returning {0,1} as the claim requires. -/
theorem deleteChar_claim_counterexample :
    (0 : Int) ≤ (0 : Int) ∧
    (0 : Int) < (Buffer.mk [['a']] [] false).lineCount ∧
    (0 : Int) < (2 : Int) ∧
    Buffer.deleteChar ⟨[['a']], [], false⟩ ⟨0, 2⟩ =
      some (⟨[['a']], [], false⟩, ⟨0, 2⟩) ∧
    (⟨0, 2⟩ : Position) ≠ ⟨0, 1⟩ := by decide

/-- C8 amended: for an in-range line, DeleteChar with `0 < col ≤ line
length` removes the preceding character and returns one column left;
with `col > line length` it is a no-op (the stale column is rejected);
with `col = 0` on a line after the first it merges the line onto the
previous one and returns the end of the old previous line; at the start
of the buffer it is a no-op. -/
theorem deleteChar_spec (b : Buffer) (pos : Position)
    (h0 : 0 ≤ pos.line) (h1 : pos.line < b.lineCount) :
    (0 < pos.col ∧ pos.col ≤ ((b.getLine pos.line).length : Int) →
      b.deleteChar pos =
        some (⟨b.lines.set pos.line.toNat
                 ((b.getLine pos.line).take (pos.col - 1).toNat ++
                  (b.getLine pos.line).drop pos.col.toNat),
               b.filename, true⟩,
              ⟨pos.line, pos.col - 1⟩)) ∧
    (((b.getLine pos.line).length : Int) < pos.col →
      b.deleteChar pos = some (b, pos)) ∧
    (pos.col = 0 ∧ 0 < pos.line →
      b.deleteChar pos =
        some (⟨b.lines.take (pos.line.toNat - 1) ++
                 (b.getLine (pos.line - 1) ++ b.getLine pos.line) ::
                 b.lines.drop (pos.line.toNat + 1),
               b.filename, true⟩,
              ⟨pos.line - 1, ((b.getLine (pos.line - 1)).length : Int)⟩)) ∧
    (pos.col = 0 ∧ pos.line = 0 → b.deleteChar pos = some (b, pos)) :=
  ⟨fun h => deleteChar_del_eq h0 h1 h,
   fun h => deleteChar_noop_eq h0 h1 h,
   fun h => deleteChar_merge_eq h1 h.1 h.2,
   fun h => deleteChar_origin_eq h1 h.1 h.2⟩

/-- C8 witness: backspace at the start of line 1 of ["ab","c"] merges
into ["abc"] and puts the position at {0,2}. -/
theorem deleteChar_spec_witness :
    (0 : Int) ≤ (1 : Int) ∧
    (1 : Int) < (Buffer.mk [['a', 'b'], ['c']] [] false).lineCount ∧
    Buffer.deleteChar ⟨[['a', 'b'], ['c']], [], false⟩ ⟨1, 0⟩ =
      some (⟨[['a', 'b', 'c']], [], true⟩, ⟨0, 2⟩) := by
  refine ⟨by decide, by decide, ?_⟩
  have h := (deleteChar_spec ⟨[['a', 'b'], ['c']], [], false⟩ ⟨1, 0⟩
    (by decide) (by decide)).2.2.1 ⟨rfl, by decide⟩
  rw [h]
  decide

/-! ## C2: out-of-range coordinates -/

/-- C2 counterexample: a negative line number makes InsertChar panic
(Go index out of range), and an out-of-range selection makes
DeleteSelection panic — the Buffer does raise on some out-of-range
positions. -/
theorem buffer_panic_counterexample :
    Buffer.insertChar ⟨[['a']], [], false⟩ ⟨-1, 0⟩ 'x' = none ∧
    Buffer.deleteSelection ⟨[[]], [], false⟩ ⟨⟨0, 0⟩, ⟨5, 0⟩⟩ = none := by
  decide

/-- C2 amended: the Buffer never raises on coordinates that are
non-negative (and, for DeleteSelection, whose normalized endpoints are in
range): lines at or past LineCount make the insert/delete primitives
no-ops, columns past the line length are clamped or rejected, GetLine is
total; but negative coordinates and out-of-range DeleteSelection
endpoints do panic. -/
theorem buffer_defensive_spec :
    (∀ (b : Buffer) (pos : Position) (ch : Char), 0 ≤ pos.line →
      0 ≤ pos.col → (b.insertChar pos ch).isSome) ∧
    (∀ (b : Buffer) (pos : Position), 0 ≤ pos.line → 0 ≤ pos.col →
      (b.insertNewline pos).isSome) ∧
    (∀ (b : Buffer) (pos : Position), 0 ≤ pos.line → 0 ≤ pos.col →
      (b.deleteChar pos).isSome) ∧
    (∀ (b : Buffer) (pos : Position) (ch : Char), b.lineCount ≤ pos.line →
      b.insertChar pos ch = some (b, pos)) ∧
    (∀ (b : Buffer) (pos : Position), b.lineCount ≤ pos.line →
      b.insertNewline pos = some (b, pos)) ∧
    (∀ (b : Buffer) (pos : Position), b.lineCount ≤ pos.line →
      b.deleteChar pos = some (b, pos)) ∧
    (∀ (b : Buffer) (n : Int), n < 0 ∨ b.lineCount ≤ n →
      b.getLine n = []) ∧
    (∀ (b : Buffer) (sel : Selection), ValidPos b sel.start →
      ValidPos b sel.endP → (b.deleteSelection sel).isSome) ∧
    (∀ (b : Buffer) (sel : Selection), 0 ≤ sel.start.col →
      (sel.start.line = sel.endP.line → sel.start.col ≤ sel.endP.col) →
      (b.getSelectedText sel).isSome) := by
  refine ⟨insertChar_isSome, insertNewline_isSome, deleteChar_isSome,
    ?_, ?_, ?_, ?_, deleteSelection_isSome, getSelectedText_isSome⟩
  · intro b pos ch h
    unfold Buffer.insertChar
    rw [if_pos h]
  · intro b pos h
    unfold Buffer.insertNewline
    rw [if_pos h]
  · intro b pos h
    unfold Buffer.deleteChar
    rw [if_pos h]
  · intro b n h
    exact getLine_out h

/-- C2 witness: the defensive cases at concrete stale coordinates. -/
theorem buffer_defensive_spec_witness :
    (Buffer.insertChar ⟨[['a']], [], false⟩ ⟨0, 99⟩ 'x').isSome ∧
    Buffer.deleteChar ⟨[['a']], [], false⟩ ⟨7, 0⟩ =
      some (⟨[['a']], [], false⟩, ⟨7, 0⟩) ∧
    Buffer.getLine ⟨[['a']], [], false⟩ 5 = [] := by
  refine ⟨?_, ?_, ?_⟩
  · exact buffer_defensive_spec.1 ⟨[['a']], [], false⟩ ⟨0, 99⟩ 'x'
      (by decide) (by decide)
  · exact buffer_defensive_spec.2.2.2.2.2.1 ⟨[['a']], [], false⟩ ⟨7, 0⟩
      (by decide)
  · exact buffer_defensive_spec.2.2.2.2.2.2.1 ⟨[['a']], [], false⟩ 5
      (Or.inr (by decide))

/-! ## C3: the line list never becomes empty -/

/-- C3: every buffer operation preserves the at-least-one-line
invariant: a fresh buffer and a loaded buffer are non-empty, and each
completed mutation keeps a non-empty line list non-empty (for
DeleteSelection, completion itself implies the selection was in range). -/
theorem buffer_nonempty_spec :
    Buffer.new.lines ≠ [] ∧
    (∀ fn content, (Buffer.loadFile fn content).lines ≠ []) ∧
    (∀ (b : Buffer) (pos : Position) (ch : Char) (r : Buffer × Position),
      b.insertChar pos ch = some r → b.lines ≠ [] → r.1.lines ≠ []) ∧
    (∀ (b : Buffer) (pos : Position) (r : Buffer × Position),
      b.insertNewline pos = some r → b.lines ≠ [] → r.1.lines ≠ []) ∧
    (∀ (b : Buffer) (pos : Position) (r : Buffer × Position),
      b.deleteChar pos = some r → b.lines ≠ [] → r.1.lines ≠ []) ∧
    (∀ (b : Buffer) (sel : Selection) (r : Buffer × Position),
      b.deleteSelection sel = some r → b.lines ≠ [] → r.1.lines ≠ []) := by
  refine ⟨by decide, ?_, ?_, ?_, ?_, ?_⟩
  · intro fn content
    unfold Buffer.loadFile
    dsimp only
    split_ifs with h
    · simp
    · simp only [splitLF, List.splitOn]
      exact List.splitOnP_ne_nil _ _
  · intro b pos ch r h hne
    unfold Buffer.insertChar at h
    split at h
    · cases h; exact hne
    · simp only [Option.bind_eq_bind, Option.bind_eq_some] at h
      obtain ⟨line, hline, pre, hpre, post, hpost, ls, hls, h⟩ := h
      simp only [Option.some.injEq] at h
      obtain ⟨-, -, hset⟩ := goSet_inv hls
      subst hset
      rw [← h]
      intro hnil
      have := congrArg List.length hnil
      rw [List.length_set] at this
      exact hne (List.length_eq_zero.mp this)
  · intro b pos r h hne
    unfold Buffer.insertNewline at h
    split at h
    · cases h; exact hne
    · simp only [Option.bind_eq_bind, Option.bind_eq_some] at h
      obtain ⟨line, hline, bef, hbef, aft, haft, ls1, hls1, front, hfront,
        back, hback, h⟩ := h
      simp only [Option.some.injEq] at h
      rw [← h]
      simp
  · intro b pos r h hne
    unfold Buffer.deleteChar at h
    split at h
    · cases h; exact hne
    · simp only [Option.bind_eq_bind, Option.bind_eq_some] at h
      obtain ⟨line, hline, h⟩ := h
      split at h
      · simp only [Option.bind_eq_bind, Option.bind_eq_some] at h
        obtain ⟨pre, hpre, post, hpost, ls, hls, h⟩ := h
        simp only [Option.some.injEq] at h
        obtain ⟨-, -, hset⟩ := goSet_inv hls
        subst hset
        rw [← h]
        intro hnil
        have := congrArg List.length hnil
        rw [List.length_set] at this
        exact hne (List.length_eq_zero.mp this)
      · split at h
        · rename_i hcond
          simp only [Option.bind_eq_bind, Option.bind_eq_some] at h
          obtain ⟨prev, hprev, ls1, hls1, front, hfront, back, hback, h⟩ := h
          simp only [Option.some.injEq] at h
          obtain ⟨-, -, hset⟩ := goSet_inv hls1
          obtain ⟨hf0, hf1, hfront1⟩ := goTake_inv hfront
          obtain ⟨hb0, hb1, hback1⟩ := goDrop_inv hback
          rw [← h]
          intro hnil
          have := congrArg List.length hnil
          simp only [List.length_append, List.length_take, List.length_drop,
            List.length_nil, hfront1, hback1] at this
          rw [hset, List.length_set] at this
          rw [hset, List.length_set] at hf1
          have hl1 : 0 < pos.line := hcond.2
          have hbl : 0 < b.lines.length := List.length_pos.mpr hne
          omega
        · cases h; exact hne
  · intro b sel r h hne
    unfold Buffer.deleteSelection at h
    dsimp only at h
    split at h
    · simp only [Option.bind_eq_bind, Option.bind_eq_some] at h
      obtain ⟨line, hline, pre, hpre, post, hpost, ls, hls, h⟩ := h
      simp only [Option.some.injEq] at h
      obtain ⟨-, -, hset⟩ := goSet_inv hls
      subst hset
      rw [← h]
      intro hnil
      have := congrArg List.length hnil
      rw [List.length_set] at this
      exact hne (List.length_eq_zero.mp this)
    · simp only [Option.bind_eq_bind, Option.bind_eq_some] at h
      obtain ⟨sl, hsl, sp, hsp, el, hel, ep, hep, ls1, hls1, h⟩ := h
      obtain ⟨hss0, hss1, hset⟩ := goSet_inv hls1
      have hbl : 0 < b.lines.length := List.length_pos.mpr hne
      split at h
      · simp only [Option.bind_eq_bind, Option.bind_eq_some] at h
        obtain ⟨front, hfront, back, hback, h⟩ := h
        simp only [Option.some.injEq] at h
        obtain ⟨hf0, hf1, hfront1⟩ := goTake_inv hfront
        rw [← h]
        intro hnil
        have := congrArg List.length hnil
        simp only [List.length_append, List.length_take, List.length_drop,
          List.length_nil, hfront1] at this
        rw [hset, List.length_set] at this
        rw [hset, List.length_set] at hf1
        omega
      · simp only [Option.bind_eq_bind, Option.bind_eq_some] at h
        obtain ⟨front, hfront, h⟩ := h
        simp only [Option.some.injEq] at h
        obtain ⟨hf0, hf1, hfront1⟩ := goTake_inv hfront
        rw [← h]
        intro hnil
        rw [hfront1] at hnil
        have := congrArg List.length hnil
        simp only [List.length_take, List.length_nil] at this
        rw [hset, List.length_set] at this
        rw [hset, List.length_set] at hf1
        omega

/-- C3 witness: inserting into a fresh buffer keeps the line list
non-empty. -/
theorem buffer_nonempty_spec_witness :
    Buffer.new.lines ≠ [] ∧
    ((⟨[['a']], [], true⟩ : Buffer) : Buffer).lines ≠ [] := by
  refine ⟨by decide, ?_⟩
  exact buffer_nonempty_spec.2.2.1 Buffer.new ⟨0, 0⟩ 'a'
    (⟨[['a']], [], true⟩, ⟨0, 1⟩) (by decide) (by decide)

/-! ## C5: DeleteSelection removes exactly the normalized range -/

/-- C5: for a selection whose normalized endpoints are in range,
DeleteSelection keeps the start line's prefix before the start column,
appends the end line's suffix from the end column, drops lines start+1
through end inclusive, marks the buffer dirty, and returns the
normalized start (the same shape covers the same-line splice and the
multi-line merge of the Go code). -/
theorem deleteSelection_spec (b : Buffer) (sel : Selection)
    (hs : ValidPos b sel.start) (he : ValidPos b sel.endP) :
    b.deleteSelection sel =
      some (⟨b.lines.take sel.start.line.toNat ++
               ((b.getLine sel.start.line).take sel.start.col.toNat ++
                (b.getLine sel.endP.line).drop sel.endP.col.toNat) ::
               b.lines.drop (sel.endP.line.toNat + 1),
             b.filename, true⟩,
            sel.start) :=
  deleteSelection_eq hs he

/-- C5 witness: buffer ["ab","cd"] with selection {0,1}–{1,1} becomes
["ad"] with returned position {0,1}. -/
theorem deleteSelection_spec_witness :
    ValidPos ⟨[['a', 'b'], ['c', 'd']], [], false⟩
      (Selection.start ⟨⟨0, 1⟩, ⟨1, 1⟩⟩) ∧
    ValidPos ⟨[['a', 'b'], ['c', 'd']], [], false⟩
      (Selection.endP ⟨⟨0, 1⟩, ⟨1, 1⟩⟩) ∧
    Buffer.deleteSelection ⟨[['a', 'b'], ['c', 'd']], [], false⟩
        ⟨⟨0, 1⟩, ⟨1, 1⟩⟩ =
      some (⟨[['a', 'd']], [], true⟩, ⟨0, 1⟩) := by
  have h1 : ValidPos ⟨[['a', 'b'], ['c', 'd']], [], false⟩
      (Selection.start ⟨⟨0, 1⟩, ⟨1, 1⟩⟩) := by
    unfold ValidPos
    decide
  have h2 : ValidPos ⟨[['a', 'b'], ['c', 'd']], [], false⟩
      (Selection.endP ⟨⟨0, 1⟩, ⟨1, 1⟩⟩) := by
    unfold ValidPos
    decide
  refine ⟨h1, h2, ?_⟩
  rw [deleteSelection_spec ⟨[['a', 'b'], ['c', 'd']], [], false⟩
    ⟨⟨0, 1⟩, ⟨1, 1⟩⟩ h1 h2]
  decide

/-- C4 witness: a dirty buffer with accumulator "  wq " saves and quits. -/
theorem executeCommand_spec_witness :
    goTrimSpace ([' ', 'w', 'q', ' '] : List Char) = ['w', 'q'] ∧
    Editor.executeCommand true
        { Editor.new with command := [' ', 'w', 'q', ' '],
                          buffer := ⟨[[]], ['f'], true⟩ } =
      ({ Editor.new with command := [],
                         buffer := ⟨[[]], ['f'], false⟩ }, true) := by
  refine ⟨by decide, ?_⟩
  have h := (executeCommand_spec
    { Editor.new with command := [' ', 'w', 'q', ' '],
                      buffer := ⟨[[]], ['f'], true⟩ } true).2.2.2.2.1
  rw [h (by decide)]
  decide

/-! ## Editor invariant machinery -/

theorem lineCount_pos {b : Buffer} (hb : b.lines ≠ []) : 0 < b.lineCount := by
  simp only [Buffer.lineCount]
  exact_mod_cast List.length_pos.mpr hb

/-- The clamped cursor is always a valid position of a non-empty buffer. -/
theorem clampPos_valid (m : Mode) {b : Buffer} (hb : b.lines ≠ [])
    (p : Position) : ValidPos b (clampPos m b p) := by
  have hcount : 0 < b.lineCount := lineCount_pos hb
  unfold clampPos ValidPos
  dsimp only
  split_ifs <;> refine ⟨by omega, by omega, by omega, by omega⟩

/-- `ValidPos` only looks at the line list. -/
theorem ValidPos_lines {b1 b2 : Buffer} (h : b1.lines = b2.lines)
    {p : Position} (hv : ValidPos b1 p) : ValidPos b2 p := by
  unfold ValidPos Buffer.lineCount Buffer.getLine at hv ⊢
  rw [← h]
  exact hv

/-- The post-movement selection update keeps the invariant, given a valid
new cursor and a valid old anchor. -/
theorem afterMove_inv {e : Editor} (hb : e.buffer.lines ≠ [])
    (hc : ValidPos e.buffer e.cursor)
    (ha : ValidPos e.buffer e.selection.anchor) :
    EditorInv e.afterMove := by
  unfold Editor.afterMove EditorInv Selection.extendTo Selection.new
  split_ifs
  · exact ⟨hb, hc, ha, hc⟩
  · exact ⟨hb, hc, hc, hc⟩

/-- Clamping then updating the selection establishes the invariant from
the buffer and the old anchor alone. -/
theorem clampAfter_inv {e : Editor} (hb : e.buffer.lines ≠ [])
    (ha : ValidPos e.buffer e.selection.anchor) :
    EditorInv e.clampCursor.afterMove := by
  apply afterMove_inv
  · exact hb
  · exact clampPos_valid e.mode hb e.cursor
  · exact ha

theorem getLine_set_self {ls : List (List Char)} {fn : List Char}
    {d : Bool} {i : Int} {v : List Char} (h0 : 0 ≤ i)
    (h : i.toNat < ls.length) :
    (Buffer.mk (ls.set i.toNat v) fn d).getLine i = v := by
  rw [getLine_mk h0 (by rw [List.length_set]; omega)]
  apply List.get_set_eq

theorem getLine_append_cons {A : List (List Char)} {v : List Char}
    {B : List (List Char)} {fn : List Char} {d : Bool} {i : Int}
    (h : i.toNat = A.length) (h0 : 0 ≤ i) :
    (Buffer.mk (A ++ v :: B) fn d).getLine i = v := by
  show (goIdx (A ++ v :: B) i).getD [] = v
  unfold goIdx
  rw [if_neg (by omega), List.get?_append_right (by omega), h, Nat.sub_self]
  rfl

theorem set_ne_nil {l : List α} {n : Nat} {a : α} (h : l ≠ []) :
    l.set n a ≠ [] := by
  intro hc
  have := congrArg List.length hc
  rw [List.length_set] at this
  exact h (List.length_eq_zero.mp this)

/-- Successful `InsertChar` from a valid position yields a valid position
in a buffer of unchanged line count. -/
theorem insertChar_valid {b : Buffer} {pos : Position} {ch : Char}
    {b1 : Buffer} {p1 : Position} (hv : ValidPos b pos)
    (h : b.insertChar pos ch = some (b1, p1)) :
    b1.lines ≠ [] ∧ ValidPos b1 p1 ∧ b1.lineCount = b.lineCount := by
  obtain ⟨h0, h1, h2, h3⟩ := hv
  have hn : pos.line.toNat < b.lines.length := by
    simp only [Buffer.lineCount] at h1; omega
  rw [insertChar_eq h0 h1 h2] at h
  simp only [Option.some.injEq, Prod.mk.injEq] at h
  obtain ⟨hb1, hp1⟩ := h
  subst hb1
  subst hp1
  have hcol : 0 ≤ insCol (b.getLine pos.line) pos.col ∧
      insCol (b.getLine pos.line) pos.col ≤
        ((b.getLine pos.line).length : Int) := by
    unfold insCol; split_ifs <;> omega
  refine ⟨set_ne_nil (by intro hc; rw [hc] at hn; simp at hn), ?_, ?_⟩
  · unfold ValidPos
    dsimp only
    refine ⟨h0, ?_, by omega, ?_⟩
    · simp only [Buffer.lineCount, List.length_set]
      omega
    · rw [getLine_set_self h0 hn]
      unfold insLine
      simp only [List.length_append, List.length_take, List.length_drop,
        List.length_cons, List.length_nil]
      omega
  · simp [Buffer.lineCount, List.length_set]

/-- Successful `InsertNewline` from a valid position yields a valid
position in a buffer with one more line. -/
theorem insertNewline_valid {b : Buffer} {pos : Position}
    {b1 : Buffer} {p1 : Position} (hv : ValidPos b pos)
    (h : b.insertNewline pos = some (b1, p1)) :
    b1.lines ≠ [] ∧ ValidPos b1 p1 := by
  obtain ⟨h0, h1, h2, h3⟩ := hv
  have hn : pos.line.toNat < b.lines.length := by
    simp only [Buffer.lineCount] at h1; omega
  rw [insertNewline_eq h0 h1 h2] at h
  simp only [Option.some.injEq, Prod.mk.injEq] at h
  obtain ⟨hb1, hp1⟩ := h
  subst hb1
  subst hp1
  constructor
  · simp
  · unfold ValidPos
    dsimp only
    refine ⟨by omega, ?_, by omega, by omega⟩
    simp only [Buffer.lineCount, List.length_append, List.length_take,
      List.length_cons, List.length_drop]
    omega

/-- Successful `DeleteChar` from a valid position yields a valid position
in a non-empty buffer. -/
theorem deleteChar_valid {b : Buffer} {pos : Position}
    {b1 : Buffer} {p1 : Position} (hb : b.lines ≠ []) (hv : ValidPos b pos)
    (h : b.deleteChar pos = some (b1, p1)) :
    b1.lines ≠ [] ∧ ValidPos b1 p1 := by
  obtain ⟨h0, h1, h2, h3⟩ := hv
  have hn : pos.line.toNat < b.lines.length := by
    simp only [Buffer.lineCount] at h1; omega
  by_cases hc1 : 0 < pos.col
  · rw [deleteChar_del_eq h0 h1 ⟨hc1, h3⟩] at h
    simp only [Option.some.injEq, Prod.mk.injEq] at h
    obtain ⟨hb1, hp1⟩ := h
    subst hb1
    subst hp1
    refine ⟨set_ne_nil hb, ?_⟩
    unfold ValidPos
    dsimp only
    refine ⟨h0, ?_, by omega, ?_⟩
    · simp only [Buffer.lineCount, List.length_set]
      omega
    · rw [getLine_set_self h0 hn]
      simp only [List.length_append, List.length_take, List.length_drop]
      omega
  · have hc0 : pos.col = 0 := by omega
    by_cases hl : 0 < pos.line
    · rw [deleteChar_merge_eq h1 hc0 hl] at h
      simp only [Option.some.injEq, Prod.mk.injEq] at h
      obtain ⟨hb1, hp1⟩ := h
      subst hb1
      subst hp1
      refine ⟨by simp, ?_⟩
      unfold ValidPos
      dsimp only
      refine ⟨by omega, ?_, by omega, ?_⟩
      · simp only [Buffer.lineCount, List.length_append, List.length_cons,
          List.length_take, List.length_drop]
        omega
      · rw [getLine_append_cons (by simp only [List.length_take]; omega)
          (by omega)]
        simp only [List.length_append]
        omega
    · have hl0 : pos.line = 0 := by omega
      rw [deleteChar_origin_eq h1 hc0 hl0] at h
      simp only [Option.some.injEq, Prod.mk.injEq] at h
      obtain ⟨hb1, hp1⟩ := h
      subst hb1
      subst hp1
      exact ⟨hb, h0, h1, h2, h3⟩

/-- Successful `DeleteSelection` on valid endpoints returns the start,
valid in the resulting non-empty buffer. -/
theorem deleteSelection_valid {b : Buffer} {sel : Selection}
    {b1 : Buffer} {p1 : Position} (hs : ValidPos b sel.start)
    (he : ValidPos b sel.endP)
    (h : b.deleteSelection sel = some (b1, p1)) :
    b1.lines ≠ [] ∧ p1 = sel.start ∧ ValidPos b1 p1 := by
  obtain ⟨hs0, hs1, hs2, hs3⟩ := hs
  have hsn : sel.start.line.toNat < b.lines.length := by
    simp only [Buffer.lineCount] at hs1; omega
  rw [deleteSelection_eq ⟨hs0, hs1, hs2, hs3⟩ he] at h
  simp only [Option.some.injEq, Prod.mk.injEq] at h
  obtain ⟨hb1, hp1⟩ := h
  subst hb1
  subst hp1
  refine ⟨by simp, rfl, ?_⟩
  unfold ValidPos
  refine ⟨hs0, ?_, hs2, ?_⟩
  · show sel.start.line < (Buffer.mk _ b.filename true).lineCount
    simp only [Buffer.lineCount, List.length_append, List.length_cons,
      List.length_take, List.length_drop]
    omega
  · rw [getLine_append_cons (by simp only [List.length_take]; omega) hs0]
    simp only [List.length_append, List.length_take]
    omega

/-- The backward `SelectWord` loop can only move left, not below 0. -/
theorem swBack_bounds (line : List Char) :
    ∀ (n : Nat) (start r : Int), start.toNat = n →
      swBack line start = some r → 0 ≤ start → 0 ≤ r ∧ r ≤ start := by
  intro n
  induction n using Nat.strong_induction_on with
  | _ n ih =>
    intro start r hn h hs
    unfold swBack at h
    split at h
    · rename_i hpos
      split at h
      · exact absurd h (by simp)
      · split at h
        · have := ih (start - 1).toNat (by omega) (start - 1) r rfl h
            (by omega)
          omega
        · cases h
          omega
    · cases h
      omega

/-- The forward `SelectWord` loop can only move right, not past the line
end. -/
theorem swFwd_bounds (line : List Char) :
    ∀ (n : Nat) (stop r : Int), ((line.length : Int) - stop).toNat = n →
      swFwd line stop = some r → stop ≤ (line.length : Int) →
      stop ≤ r ∧ r ≤ (line.length : Int) := by
  intro n
  induction n using Nat.strong_induction_on with
  | _ n ih =>
    intro stop r hn h hs
    unfold swFwd at h
    split at h
    · rename_i hlt
      split at h
      · exact absurd h (by simp)
      · split at h
        · have := ih ((line.length : Int) - (stop + 1)).toNat (by omega)
            (stop + 1) r rfl h (by omega)
          omega
        · cases h
          omega
    · cases h
      omega

/-- A completed `MoveWordForward` is a clamp-and-update of some raw
cursor. -/
theorem moveWordForward_shape {e r : Editor} (h : e.moveWordForward = some r) :
    ∃ p, r = ({ e with cursor := p }).clampCursor.afterMove := by
  unfold Editor.moveWordForward at h
  simp only [Option.bind_eq_bind, Option.bind_eq_some] at h
  obtain ⟨col, hcol, h⟩ := h
  simp only [Option.some.injEq] at h
  split at h
  · exact ⟨_, h.symm⟩
  · exact ⟨_, h.symm⟩

/-- A completed `MoveWordBackward` is a clamp-and-update of some raw
cursor. -/
theorem moveWordBackward_shape {e r : Editor}
    (h : e.moveWordBackward = some r) :
    ∃ p, r = ({ e with cursor := p }).clampCursor.afterMove := by
  unfold Editor.moveWordBackward at h
  split at h
  · split at h
    · simp only [Option.bind_eq_bind, Option.some_bind, Option.some.injEq] at h
      exact ⟨_, h.symm⟩
    · simp only [Option.bind_eq_bind, Option.some_bind, Option.some.injEq] at h
      exact ⟨e.cursor, h.symm⟩
  · simp only [Option.bind_eq_bind, Option.bind_eq_some, Option.some_bind,
      Option.some.injEq] at h
    obtain ⟨c1, hc1, c2, hc2, h⟩ := h
    exact ⟨_, h.symm⟩

/-- Replaying one clipboard line through `InsertChar` keeps the threaded
position valid. -/
theorem insertString_valid :
    ∀ (cs : List Char) (b : Buffer) (pos : Position) (r : Buffer × Position),
      insertString b pos cs = some r → ValidPos b pos →
      ValidPos r.1 r.2 := by
  intro cs
  induction cs with
  | nil =>
    intro b pos r h hv
    unfold insertString at h
    simp only [Option.some.injEq] at h
    subst h
    exact hv
  | cons c rest ih =>
    intro b pos r h hv
    unfold insertString at h
    simp only [Option.bind_eq_bind, Option.bind_eq_some] at h
    obtain ⟨⟨b1, p1⟩, hstep, h⟩ := h
    exact ih b1 p1 r h (insertChar_valid hv hstep).2.1

/-- Replaying all clipboard lines keeps the threaded position valid. -/
theorem insertLines_valid :
    ∀ (ls : List (List Char)) (b : Buffer) (pos : Position)
      (r : Buffer × Position),
      insertLines b pos ls = some r → ValidPos b pos →
      ValidPos r.1 r.2 := by
  intro ls
  induction ls with
  | nil =>
    intro b pos r h hv
    unfold insertLines at h
    simp only [Option.some.injEq] at h
    subst h
    exact hv
  | cons l rest ih =>
    intro b pos r h hv
    cases rest with
    | nil => exact insertString_valid l b pos r h hv
    | cons l2 rest2 =>
      unfold insertLines at h
      simp only [Option.bind_eq_bind, Option.bind_eq_some] at h
      obtain ⟨⟨b1, p1⟩, hstr, ⟨b2, p2⟩, hnl, h⟩ := h
      have hv1 := insertString_valid l b pos (b1, p1) hstr hv
      have hv2 := (insertNewline_valid hv1 hnl).2
      exact ih b2 p2 r h hv2

/-- A valid position lives in a non-empty buffer. -/
theorem ValidPos_ne_nil {b : Buffer} {p : Position} (hv : ValidPos b p) :
    b.lines ≠ [] := by
  obtain ⟨h0, h1, -, -⟩ := hv
  intro hc
  rw [Buffer.lineCount] at h1
  rw [hc] at h1
  simp at h1
  omega

/-- `SaveFile` never touches the line list. -/
theorem saveFile_lines (ok : Bool) (b : Buffer) :
    (b.saveFile ok).lines = b.lines := by
  unfold Buffer.saveFile
  split_ifs <;> rfl

/-- `LoadFile` always produces at least one line. -/
theorem loadFile_ne_nil (fn content : List Char) :
    (Buffer.loadFile fn content).lines ≠ [] := by
  unfold Buffer.loadFile
  dsimp only
  split_ifs with h
  · simp
  · simp only [splitLF, List.splitOn]
    exact List.splitOnP_ne_nil _ _

/-- Every reachable editor state satisfies the invariant: non-empty
buffer, and cursor, anchor and head all within the buffer (line in
range, column between 0 and the line length). -/
theorem reachable_inv {e : Editor} (h : Reachable e) : EditorInv e := by
  induction h with
  | init =>
    unfold EditorInv ValidPos Editor.new Buffer.new Selection.new
    decide
  | load fn content =>
    have hne := loadFile_ne_nil fn content
    have hcnt := lineCount_pos hne
    have hv : ValidPos (Buffer.loadFile fn content) ⟨0, 0⟩ := by
      unfold ValidPos
      dsimp only
      refine ⟨by omega, by omega, by omega, by omega⟩
    exact ⟨hne, hv, hv, hv⟩
  | step e c e1 hr hs ih =>
    obtain ⟨hb, hc, ha, hh⟩ := ih
    cases c with
    | setMode m =>
      simp only [Editor.step, Option.some.injEq] at hs
      subst hs
      unfold Editor.setMode
      dsimp only
      split_ifs
      · exact ⟨hb, hc, hc, hc⟩
      · exact ⟨hb, hc, ha, hh⟩
    | moveCursor dl dc =>
      simp only [Editor.step, Option.some.injEq] at hs
      subst hs
      unfold Editor.moveCursor
      exact clampAfter_inv hb ha
    | moveCursorTo p =>
      simp only [Editor.step, Option.some.injEq] at hs
      subst hs
      unfold Editor.moveCursorTo
      exact clampAfter_inv hb ha
    | moveToLineStart =>
      simp only [Editor.step, Option.some.injEq] at hs
      subst hs
      unfold Editor.moveToLineStart
      apply afterMove_inv
      · exact hb
      · obtain ⟨hc0, hc1, -, -⟩ := hc
        refine ⟨hc0, hc1, ?_, ?_⟩ <;> (dsimp only; omega)
      · exact ha
    | moveToLineEnd =>
      simp only [Editor.step, Option.some.injEq] at hs
      subst hs
      unfold Editor.moveToLineEnd
      apply afterMove_inv
      · exact hb
      · obtain ⟨hc0, hc1, -, -⟩ := hc
        refine ⟨hc0, hc1, ?_, ?_⟩ <;> (dsimp only; split_ifs <;> omega)
      · exact ha
    | moveWordForward =>
      simp only [Editor.step] at hs
      obtain ⟨p, hp⟩ := moveWordForward_shape hs
      rw [hp]
      exact clampAfter_inv hb ha
    | moveWordBackward =>
      simp only [Editor.step] at hs
      obtain ⟨p, hp⟩ := moveWordBackward_shape hs
      rw [hp]
      exact clampAfter_inv hb ha
    | selectLine =>
      simp only [Editor.step, Option.some.injEq] at hs
      subst hs
      unfold Editor.selectLine
      obtain ⟨hc0, hc1, -, -⟩ := hc
      have hv1 : ValidPos e.buffer
          ⟨e.cursor.line,
            ((e.buffer.getLine e.cursor.line).length : Int)⟩ := by
        unfold ValidPos
        dsimp only
        exact ⟨hc0, hc1, by omega, by omega⟩
      have hv0 : ValidPos e.buffer ⟨e.cursor.line, 0⟩ := by
        unfold ValidPos
        dsimp only
        exact ⟨hc0, hc1, by omega, by omega⟩
      exact ⟨hb, hv1, hv0, hv1⟩
    | selectWord =>
      simp only [Editor.step] at hs
      unfold Editor.selectWord at hs
      dsimp only at hs
      split at hs
      · simp only [Option.some.injEq] at hs
        subst hs
        exact ⟨hb, hc, ha, hh⟩
      · simp only [Option.bind_eq_bind, Option.bind_eq_some] at hs
        obtain ⟨c0, hc0idx, hs⟩ := hs
        split at hs
        · simp only [Option.some.injEq] at hs
          subst hs
          exact ⟨hb, hc, ha, hh⟩
        · simp only [Option.bind_eq_bind, Option.bind_eq_some,
            Option.some.injEq] at hs
          obtain ⟨s, hsw, stop, hfw, hs⟩ := hs
          subst hs
          obtain ⟨hcl0, hcl1, hcl2, hcl3⟩ := hc
          have hsb := swBack_bounds (e.buffer.getLine e.cursor.line)
            e.cursor.col.toNat e.cursor.col s rfl hsw hcl2
          have hfb := swFwd_bounds (e.buffer.getLine e.cursor.line)
            (((e.buffer.getLine e.cursor.line).length : Int) -
              e.cursor.col).toNat e.cursor.col stop rfl hfw hcl3
          have hvs : ValidPos e.buffer ⟨e.cursor.line, s⟩ := by
            unfold ValidPos
            dsimp only
            exact ⟨hcl0, hcl1, by omega, by omega⟩
          have hvw : ValidPos e.buffer ⟨e.cursor.line, stop⟩ := by
            unfold ValidPos
            dsimp only
            exact ⟨hcl0, hcl1, by omega, by omega⟩
          exact ⟨hb, hvw, hvs, hvw⟩
    | deleteSelection =>
      simp only [Editor.step] at hs
      unfold Editor.deleteSelection at hs
      split at hs
      · simp only [Option.some.injEq] at hs
        subst hs
        exact ⟨hb, hc, ha, hh⟩
      · simp only [Option.bind_eq_bind, Option.bind_eq_some,
          Option.some.injEq] at hs
        obtain ⟨⟨b1, p⟩, hdel, hs⟩ := hs
        subst hs
        have hstart : ValidPos e.buffer e.selection.start := by
          rcases start_cases e.selection with h1 | h1 <;> rw [h1]
          · exact ha
          · exact hh
        have hend : ValidPos e.buffer e.selection.endP := by
          rcases endP_cases e.selection with h1 | h1 <;> rw [h1]
          · exact ha
          · exact hh
        obtain ⟨hb1ne, -, hpv⟩ := deleteSelection_valid hstart hend hdel
        exact ⟨hb1ne, clampPos_valid _ hb1ne _, hpv, hpv⟩
    | yankSelection =>
      simp only [Editor.step] at hs
      unfold Editor.yankSelection at hs
      split at hs
      · simp only [Option.some.injEq] at hs
        subst hs
        exact ⟨hb, hc, ha, hh⟩
      · simp only [Option.bind_eq_bind, Option.bind_eq_some,
          Option.some.injEq] at hs
        obtain ⟨txt, htxt, hs⟩ := hs
        subst hs
        exact ⟨hb, hc, ha, hh⟩
    | paste =>
      simp only [Editor.step] at hs
      unfold Editor.paste at hs
      split at hs
      · simp only [Option.some.injEq] at hs
        subst hs
        exact ⟨hb, hc, ha, hh⟩
      · simp only [Option.bind_eq_bind, Option.bind_eq_some,
          Option.some.injEq] at hs
        obtain ⟨⟨b1, p1⟩, hins, hs⟩ := hs
        subst hs
        have hv1 := insertLines_valid (splitLF e.clipboard) e.buffer e.cursor
          (b1, p1) hins hc
        exact ⟨ValidPos_ne_nil hv1, hv1, hv1, hv1⟩
    | insertChar ch =>
      simp only [Editor.step] at hs
      unfold Editor.insertChar at hs
      simp only [Option.bind_eq_bind, Option.bind_eq_some,
        Option.some.injEq] at hs
      obtain ⟨⟨b1, p1⟩, hstep, hs⟩ := hs
      subst hs
      obtain ⟨hne, hv, -⟩ := insertChar_valid hc hstep
      exact ⟨hne, hv, hv, hv⟩
    | insertNewline =>
      simp only [Editor.step] at hs
      unfold Editor.insertNewline at hs
      simp only [Option.bind_eq_bind, Option.bind_eq_some,
        Option.some.injEq] at hs
      obtain ⟨⟨b1, p1⟩, hstep, hs⟩ := hs
      subst hs
      obtain ⟨hne, hv⟩ := insertNewline_valid hc hstep
      exact ⟨hne, hv, hv, hv⟩
    | backspace =>
      simp only [Editor.step] at hs
      unfold Editor.backspace at hs
      simp only [Option.bind_eq_bind, Option.bind_eq_some,
        Option.some.injEq] at hs
      obtain ⟨⟨b1, p1⟩, hstep, hs⟩ := hs
      subst hs
      obtain ⟨hne, hv⟩ := deleteChar_valid hb hc hstep
      exact ⟨hne, clampPos_valid _ hne _, hv, hv⟩
    | appendCommand ch =>
      simp only [Editor.step, Option.some.injEq] at hs
      subst hs
      exact ⟨hb, hc, ha, hh⟩
    | backspaceCommand =>
      simp only [Editor.step, Option.some.injEq] at hs
      subst hs
      unfold Editor.backspaceCommand
      split_ifs
      · exact ⟨hb, hc, ha, hh⟩
      · exact ⟨hb, hc, ha, hh⟩
    | clearCommand =>
      simp only [Editor.step, Option.some.injEq] at hs
      subst hs
      exact ⟨hb, hc, ha, hh⟩
    | executeCommand ok =>
      simp only [Editor.step, Option.some.injEq] at hs
      subst hs
      unfold Editor.executeCommand
      dsimp only
      have hsl : e.buffer.lines = (e.buffer.saveFile ok).lines :=
        (saveFile_lines ok e.buffer).symm
      split_ifs
      · exact ⟨by rw [← hsl]; exact hb, ValidPos_lines hsl hc,
          ValidPos_lines hsl ha, ValidPos_lines hsl hh⟩
      · exact ⟨hb, hc, ha, hh⟩
      · exact ⟨hb, hc, ha, hh⟩
      · exact ⟨by rw [← hsl]; exact hb, ValidPos_lines hsl hc,
          ValidPos_lines hsl ha, ValidPos_lines hsl hh⟩
      · exact ⟨hb, hc, ha, hh⟩

/-! ## C1: cursor bounds after every command -/

/-- C1 counterexample: from a fresh editor, insert "a", return to Normal
mode, then SelectLine: the resulting state is reachable, is in Normal
mode with the cursor on the non-empty line "a", and has cursor column
1, which exceeds the Normal-mode bound max(lineLength-1, 0) = 0 —
SelectLine (like SetMode) skips the Normal-mode clamp. -/
theorem cursor_invariant_counterexample :
    Reachable
      ⟨⟨[['a']], [], true⟩, ⟨0, 1⟩, ⟨⟨0, 0⟩, ⟨0, 1⟩⟩,
        Mode.normal, [], []⟩ ∧
    (Mode.normal = Mode.normal) ∧
    ((Buffer.mk [['a']] [] true).getLine 0).length = 1 ∧
    ¬((1 : Int) ≤ max ((1 : Int) - 1) 0) := by
  refine ⟨?_, rfl, by decide, by decide⟩
  have r1 : Reachable
      ⟨Buffer.new, ⟨0, 0⟩, ⟨⟨0, 0⟩, ⟨0, 0⟩⟩, Mode.insert, [], []⟩ :=
    Reachable.step _ (Cmd.setMode Mode.insert) _ Reachable.init (by decide)
  have r2 : Reachable
      ⟨⟨[['a']], [], true⟩, ⟨0, 1⟩, ⟨⟨0, 1⟩, ⟨0, 1⟩⟩,
        Mode.insert, [], []⟩ :=
    Reachable.step _ (Cmd.insertChar 'a') _ r1 (by decide)
  have r3 : Reachable
      ⟨⟨[['a']], [], true⟩, ⟨0, 1⟩, ⟨⟨0, 1⟩, ⟨0, 1⟩⟩,
        Mode.normal, [], []⟩ :=
    Reachable.step _ (Cmd.setMode Mode.normal) _ r2 (by decide)
  exact Reachable.step _ Cmd.selectLine _ r3 (by decide)

/-- C1 amended: after every completed command (every reachable state),
the cursor line satisfies 0 ≤ line < LineCount() and the column satisfies
the relaxed bound 0 ≤ col ≤ lineLength in every mode; the strict
Normal-mode bound col ≤ max(lineLength-1, 0) is not maintained by
SetMode, SelectLine and SelectWord, which skip re-clamping and can leave
the cursor one-past-end in Normal mode. -/
theorem cursor_invariant_spec {e : Editor} (h : Reachable e) :
    0 ≤ e.cursor.line ∧ e.cursor.line < e.buffer.lineCount ∧
    0 ≤ e.cursor.col ∧
    e.cursor.col ≤ ((e.buffer.getLine e.cursor.line).length : Int) :=
  (reachable_inv h).2.1

/-- C1 witness: the fresh editor state. -/
theorem cursor_invariant_spec_witness :
    0 ≤ Editor.new.cursor.line ∧
    Editor.new.cursor.line < Editor.new.buffer.lineCount ∧
    0 ≤ Editor.new.cursor.col ∧
    Editor.new.cursor.col ≤
      ((Editor.new.buffer.getLine Editor.new.cursor.line).length : Int) :=
  cursor_invariant_spec Reachable.init

/-! ## C6: SetMode with the current mode -/

/-- C6 counterexample: the reachable state just after SelectLine (Normal
mode, selection anchored at column 0 with head at column 1) is changed by
SetMode(Normal): the selection collapses to the cursor, so the redundant
SetMode is not a no-op on the selection. -/
theorem setMode_idempotence_counterexample :
    Reachable
      ⟨⟨[['a']], [], true⟩, ⟨0, 1⟩, ⟨⟨0, 0⟩, ⟨0, 1⟩⟩,
        Mode.normal, [], []⟩ ∧
    (Editor.setMode
        ⟨⟨[['a']], [], true⟩, ⟨0, 1⟩, ⟨⟨0, 0⟩, ⟨0, 1⟩⟩,
          Mode.normal, [], []⟩
        Mode.normal).selection ≠
      (⟨⟨0, 0⟩, ⟨0, 1⟩⟩ : Selection) := by
  constructor
  · have r1 : Reachable
        ⟨Buffer.new, ⟨0, 0⟩, ⟨⟨0, 0⟩, ⟨0, 0⟩⟩, Mode.insert, [], []⟩ :=
      Reachable.step _ (Cmd.setMode Mode.insert) _ Reachable.init (by decide)
    have r2 : Reachable
        ⟨⟨[['a']], [], true⟩, ⟨0, 1⟩, ⟨⟨0, 1⟩, ⟨0, 1⟩⟩,
          Mode.insert, [], []⟩ :=
      Reachable.step _ (Cmd.insertChar 'a') _ r1 (by decide)
    have r3 : Reachable
        ⟨⟨[['a']], [], true⟩, ⟨0, 1⟩, ⟨⟨0, 1⟩, ⟨0, 1⟩⟩,
          Mode.normal, [], []⟩ :=
      Reachable.step _ (Cmd.setMode Mode.normal) _ r2 (by decide)
    exact Reachable.step _ Cmd.selectLine _ r3 (by decide)
  · decide

/-- C6 amended: SetMode with the current mode never changes the cursor,
the buffer or the mode; it leaves the whole state unchanged whenever the
current mode is Visual or the selection is already collapsed at the
cursor; in a non-Visual mode with an uncollapsed selection (possible
right after SelectLine or SelectWord) it collapses the selection to the
cursor. -/
theorem setMode_idempotence_spec (e : Editor) :
    (e.setMode e.mode).cursor = e.cursor ∧
    (e.setMode e.mode).buffer = e.buffer ∧
    (e.setMode e.mode).mode = e.mode ∧
    ((e.mode = Mode.visual ∨ e.selection = Selection.new e.cursor) →
      e.setMode e.mode = e) ∧
    (e.mode ≠ Mode.visual →
      (e.setMode e.mode).selection = Selection.new e.cursor) := by
  unfold Editor.setMode
  dsimp only
  split_ifs with hv
  · refine ⟨rfl, rfl, rfl, ?_, fun _ => rfl⟩
    rintro (h1 | h1)
    · exact absurd h1 hv
    · rw [← h1]
  · refine ⟨rfl, rfl, rfl, fun _ => rfl, fun h1 => absurd (by simpa using hv) h1⟩

/-- C6 witness: on the fresh editor (collapsed selection) the redundant
SetMode is a complete no-op. -/
theorem setMode_idempotence_spec_witness :
    Editor.new.setMode Editor.new.mode = Editor.new :=
  (setMode_idempotence_spec Editor.new).2.2.2.1 (Or.inr rfl)

/-! ## C10: YankSelection frame -/

/-- C10: on every reachable state YankSelection completes and modifies
only the clipboard: buffer (lines, filename and dirty flag), cursor,
selection, mode and command accumulator are unchanged; and on an empty
selection it changes nothing at all, the clipboard included. -/
theorem yankSelection_frame {e : Editor} (h : Reachable e) :
    ∃ e1, e.yankSelection = some e1 ∧
      e1.buffer = e.buffer ∧ e1.cursor = e.cursor ∧
      e1.selection = e.selection ∧ e1.mode = e.mode ∧
      e1.command = e.command ∧
      (e.selection.isEmpty = true → e1 = e) := by
  obtain ⟨hb, hc, ha, hh⟩ := reachable_inv h
  unfold Editor.yankSelection
  split_ifs with hemp
  · exact ⟨e, rfl, rfl, rfl, rfl, rfl, rfl, fun _ => rfl⟩
  · have hs0 : 0 ≤ e.selection.start.col := by
      rcases start_cases e.selection with h1 | h1 <;> rw [h1]
      · exact ha.2.2.1
      · exact hh.2.2.1
    have hcc : e.selection.start.line = e.selection.endP.line →
        e.selection.start.col ≤ e.selection.endP.col := by
      intro hline
      rcases start_le_endP e.selection with h1 | h1
      · omega
      · exact h1.2
    obtain ⟨txt, htxt⟩ := Option.isSome_iff_exists.mp
      (getSelectedText_isSome e.buffer e.selection hs0 hcc)
    rw [htxt]
    simp only [Option.bind_eq_bind, Option.some_bind]
    refine ⟨_, rfl, rfl, rfl, rfl, rfl, rfl, ?_⟩
    intro hemp2
    exact absurd hemp2 hemp

/-- C10 witness: the fresh editor has an empty selection, so
YankSelection leaves it entirely unchanged. -/
theorem yankSelection_frame_witness :
    ∃ e1, Editor.new.yankSelection = some e1 ∧
      e1.buffer = Editor.new.buffer ∧ e1.cursor = Editor.new.cursor ∧
      e1.selection = Editor.new.selection ∧ e1.mode = Editor.new.mode ∧
      e1.command = Editor.new.command ∧
      (Editor.new.selection.isEmpty = true → e1 = Editor.new) :=
  yankSelection_frame Reachable.init

/-! ## C7: MoveWordForward -/

/-- The scan loop, once inside a word, stops at the end of that word run
(or end of line). -/
theorem mwfLoop_true_eq (line : List Char) :
    ∀ (n : Nat) (col : Int), ((line.length : Int) - col).toNat = n →
      0 ≤ col → col ≤ (line.length : Int) →
      mwfLoop line true col =
        some ((line.length : Int) -
          (((line.drop col.toNat).dropWhile isWordChar).length : Int)) := by
  intro n
  induction n using Nat.strong_induction_on with
  | _ n ih =>
    intro col hn h0 h1
    unfold mwfLoop
    by_cases hlt : col < (line.length : Int)
    · have hcl : col.toNat < line.length := by omega
      have hdrop : line.drop col.toNat =
          line.get ⟨col.toNat, hcl⟩ :: line.drop (col.toNat + 1) :=
        List.drop_eq_get_cons hcl
      rw [dif_pos hlt, goIdx_eq_get h0 hlt]
      dsimp only
      rw [if_neg (by simp)]
      by_cases hw : isWordChar (line.get ⟨col.toNat, hcl⟩) = true
      · rw [if_neg (by rw [hw]; decide)]
        rw [ih ((line.length : Int) - (col + 1)).toNat (by omega) (col + 1)
          rfl (by omega) (by omega)]
        have ht : (col + 1).toNat = col.toNat + 1 := by omega
        rw [ht, hdrop, List.dropWhile_cons_of_pos hw]
      · have hw2 : isWordChar (line.get ⟨col.toNat, hcl⟩) = false := by
          cases h2 : isWordChar (line.get ⟨col.toNat, hcl⟩)
          · rfl
          · exact absurd h2 hw
        rw [if_pos (by rw [hw2]; decide)]
        rw [hdrop, List.dropWhile_cons_of_neg hw]
        simp only [Option.some.injEq, List.length_cons, List.length_drop]
        omega
    · rw [dif_neg hlt]
      have hd : line.drop col.toNat = [] :=
        List.drop_eq_nil_of_le (by omega)
      rw [hd]
      simp only [List.dropWhile_nil, List.length_nil, Option.some.injEq]
      omega

/-- The scan loop from outside a word computes exactly the spec's
description `specScan`. -/
theorem mwfLoop_false_eq (line : List Char) :
    ∀ (n : Nat) (col : Int), ((line.length : Int) - col).toNat = n →
      0 ≤ col → col ≤ (line.length : Int) →
      mwfLoop line false col = some (specScan line col) := by
  intro n
  induction n using Nat.strong_induction_on with
  | _ n ih =>
    intro col hn h0 h1
    unfold mwfLoop specScan
    by_cases hlt : col < (line.length : Int)
    · have hcl : col.toNat < line.length := by omega
      have hdrop : line.drop col.toNat =
          line.get ⟨col.toNat, hcl⟩ :: line.drop (col.toNat + 1) :=
        List.drop_eq_get_cons hcl
      rw [dif_pos hlt, goIdx_eq_get h0 hlt]
      dsimp only
      by_cases hw : isWordChar (line.get ⟨col.toNat, hcl⟩) = true
      · rw [if_pos (by rw [hw]; decide)]
        rw [mwfLoop_true_eq line ((line.length : Int) - (col + 1)).toNat
          (col + 1) rfl (by omega) (by omega)]
        have ht : (col + 1).toNat = col.toNat + 1 := by omega
        rw [ht, hdrop, List.dropWhile_cons_of_neg (by rw [hw]; decide),
          List.dropWhile_cons_of_pos hw]
        rw [if_neg (List.cons_ne_nil _ _)]
      · have hw2 : isWordChar (line.get ⟨col.toNat, hcl⟩) = false := by
          cases h2 : isWordChar (line.get ⟨col.toNat, hcl⟩)
          · rfl
          · exact absurd h2 hw
        rw [if_neg (by rw [hw2]; decide), if_neg (by rw [hw2]; decide)]
        rw [ih ((line.length : Int) - (col + 1)).toNat (by omega) (col + 1)
          rfl (by omega) (by omega)]
        unfold specScan
        have ht : (col + 1).toNat = col.toNat + 1 := by omega
        rw [ht, hdrop, List.dropWhile_cons_of_pos (by rw [hw2]; decide)]
    · rw [dif_neg hlt]
      have hd : line.drop col.toNat = [] :=
        List.drop_eq_nil_of_le (by omega)
      rw [hd]
      simp only [List.dropWhile_nil, ite_true, Option.some.injEq]
      omega

/-- C7: MoveWordForward scans forward from the cursor column, treating a
leading run of non-word characters as not yet in a word and the
following run of word characters as in a word, stopping at the first
non-word character after having entered a word or at end of line (this
description is `specScan`); if the scan produced no column change and a
following line exists the cursor moves to the start of the next line,
otherwise it adopts the scanned column; the motion then re-clamps and
applies the usual selection update — on buffer ["abc"] in Normal mode
with cursor {0,2} and no next line this leaves the cursor unchanged
(see the witness). -/
theorem moveWordForward_spec (e : Editor)
    (h0 : 0 ≤ e.cursor.col)
    (h1 : e.cursor.col ≤ ((e.buffer.getLine e.cursor.line).length : Int)) :
    e.moveWordForward = some
      (({ e with cursor :=
          if specScan (e.buffer.getLine e.cursor.line) e.cursor.col =
                e.cursor.col ∧
              e.cursor.line < e.buffer.lineCount - 1 then
            (⟨e.cursor.line + 1, 0⟩ : Position)
          else
            ⟨e.cursor.line,
             specScan (e.buffer.getLine e.cursor.line) e.cursor.col⟩
        }).clampCursor.afterMove) := by
  unfold Editor.moveWordForward
  dsimp only
  rw [mwfLoop_false_eq (e.buffer.getLine e.cursor.line)
    (((e.buffer.getLine e.cursor.line).length : Int) - e.cursor.col).toNat
    e.cursor.col rfl h0 h1]
  simp only [Option.bind_eq_bind, Option.some_bind, Option.some.injEq]
  split_ifs <;> rfl

/-- C7 witness: buffer ["abc"], Normal mode, cursor {0,2}: the scan stops
at end of line (column 3), the clamp pulls it back, and the cursor (and
whole state) is unchanged. -/
theorem moveWordForward_spec_witness :
    (0 : Int) ≤ (2 : Int) ∧
    (2 : Int) ≤
      (((Buffer.mk [['a', 'b', 'c']] [] false).getLine 0).length : Int) ∧
    Editor.moveWordForward
        ⟨⟨[['a', 'b', 'c']], [], false⟩, ⟨0, 2⟩, ⟨⟨0, 2⟩, ⟨0, 2⟩⟩,
          Mode.normal, [], []⟩ =
      some ⟨⟨[['a', 'b', 'c']], [], false⟩, ⟨0, 2⟩, ⟨⟨0, 2⟩, ⟨0, 2⟩⟩,
          Mode.normal, [], []⟩ := by
  refine ⟨by decide, by decide, ?_⟩
  rw [moveWordForward_spec
    ⟨⟨[['a', 'b', 'c']], [], false⟩, ⟨0, 2⟩, ⟨⟨0, 2⟩, ⟨0, 2⟩⟩,
      Mode.normal, [], []⟩ (by decide) (by decide)]
  decide

end ThreadWeaver
